import Mathlib

/-!
# Verification of the wiresocks forwarding plane

A shallow embedding, in Lean 4, of the parts of the `wiresocks` repository
that its specification makes claims about:

* the configuration renderer and parser (`config.go`: `Configuration.String`,
  `ParseInterface`, `ParsePeers`, `ParseConfig`), together with models of the
  external collaborators they use (the go-ini INI reader, Go's
  `encoding/base64` and `encoding/hex`, decimal integer formatting);
* the SOCKS4/4a request reader (`proxy/socks/socks4/common.go`: `NewRequest`,
  `isSocks4a`, `Address.String`), with Go's `net.IPv4` modelled faithfully as
  returning the 16-byte IPv4-in-IPv6 form;
* the SOCKS5 method negotiation (`proxy/socks/socks5/auth.go`:
  `Server.authenticate`);
* the embedded SOCKS5 UDP relay loop (`Server.embedHandleAssociate`);
* the bidirectional forwarding handler and its copier (`vtun.go`:
  `virtualTun.handler`, `copyConnTimeout`);
* the WireGuard IPC document builder (`establishWireguard`) and the peer
  preparation loop of `WireSocks.Run`.

Go byte slices are modelled as `List Nat` (well-formed entries `< 256`),
Go strings as `List Char`.
-/

namespace Wiresocks

/-! ## Characters and small numeric codecs -/

/-- Decimal digit character, as Go's integer formatting produces. -/
def digitCh (n : Nat) : Char := Char.ofNat (48 + n)

/-- Numeric value of a decimal digit character, `none` otherwise. -/
def digitVal (c : Char) : Option Nat :=
  if 48 ≤ c.toNat ∧ c.toNat ≤ 57 then some (c.toNat - 48) else none

theorem digitVal_digitCh_fin : ∀ d : Fin 10, digitVal (digitCh d.val) = some d.val := by
  decide

theorem digitVal_digitCh (n : Nat) (h : n < 10) : digitVal (digitCh n) = some n :=
  digitVal_digitCh_fin ⟨n, h⟩

theorem digitCh_ne_minus_fin : ∀ d : Fin 10, digitCh d.val ≠ '-' := by decide

theorem digitCh_ne_plus_fin : ∀ d : Fin 10, digitCh d.val ≠ '+' := by decide

/-! ### Go integer formatting (`fmt.Sprintf "%d"`) and parsing (`strconv`) -/

/-- Accumulator form of decimal rendering of a natural number. -/
def natRenderAux (n : Nat) (acc : List Char) : List Char :=
  if n < 10 then digitCh n :: acc
  else natRenderAux (n / 10) (digitCh (n % 10) :: acc)
termination_by n
decreasing_by exact Nat.div_lt_self (by omega) (by omega)

/-- Decimal rendering of a natural number, as Go's `%d` produces. -/
def natRender (n : Nat) : List Char := natRenderAux n []

theorem natRenderAux_eq (n : Nat) :
    ∀ acc, natRenderAux n acc = natRenderAux n [] ++ acc := by
  induction n using Nat.strong_induction_on with
  | _ n ih =>
    intro acc
    by_cases h : n < 10
    · simp [natRenderAux, h]
    · have hd : n / 10 < n := Nat.div_lt_self (by omega) (by omega)
      conv_lhs => rw [natRenderAux, if_neg h, ih (n / 10) hd (digitCh (n % 10) :: acc)]
      conv_rhs => rw [natRenderAux, if_neg h, ih (n / 10) hd [digitCh (n % 10)]]
      simp

theorem natRender_head (n : Nat) :
    ∃ d t, d < 10 ∧ natRender n = digitCh d :: t := by
  induction n using Nat.strong_induction_on with
  | _ n ih =>
    by_cases h : n < 10
    · exact ⟨n, [], h, by simp [natRender, natRenderAux, h]⟩
    · have hd : n / 10 < n := Nat.div_lt_self (by omega) (by omega)
      obtain ⟨d, t, hdlt, ht⟩ := ih (n / 10) hd
      refine ⟨d, t ++ [digitCh (n % 10)], hdlt, ?_⟩
      rw [natRender, natRenderAux, if_neg h, natRenderAux_eq]
      rw [natRender] at ht
      simp [ht]

/-- Accumulator form of decimal parsing. -/
def natParseAux (acc : Nat) : List Char → Option Nat
  | [] => some acc
  | c :: cs =>
    match digitVal c with
    | some d => natParseAux (acc * 10 + d) cs
    | none => none

/-- Decimal parsing of a non-empty digit string. -/
def natParse (cs : List Char) : Option Nat :=
  match cs with
  | [] => none
  | _ => natParseAux 0 cs

theorem natParseAux_append (ds es : List Char) :
    ∀ a, natParseAux a (ds ++ es) =
      (natParseAux a ds).bind (fun v => natParseAux v es) := by
  induction ds with
  | nil => intro a; simp [natParseAux]
  | cons c cs ih =>
    intro a
    simp only [List.cons_append, natParseAux]
    cases digitVal c with
    | some d => exact ih (a * 10 + d)
    | none => rfl

theorem natParseAux_natRender (n : Nat) : natParseAux 0 (natRender n) = some n := by
  induction n using Nat.strong_induction_on with
  | _ n ih =>
    by_cases h : n < 10
    · simp [natRender, natRenderAux, h, natParseAux, digitVal_digitCh n h]
    · have hd : n / 10 < n := Nat.div_lt_self (by omega) (by omega)
      have hstep : natRender n = natRender (n / 10) ++ [digitCh (n % 10)] := by
        rw [natRender, natRenderAux, if_neg h, natRenderAux_eq]; rfl
      rw [hstep, natParseAux_append, ih (n / 10) hd]
      have h10 : n % 10 < 10 := Nat.mod_lt _ (by omega)
      simp [natParseAux, digitVal_digitCh _ h10]
      omega

theorem natParse_natRender (n : Nat) : natParse (natRender n) = some n := by
  obtain ⟨d, t, _, ht⟩ := natRender_head n
  have h1 : natParse (natRender n) = natParseAux 0 (natRender n) := by
    rw [ht]; rfl
  rw [h1, natParseAux_natRender]

/-- Signed decimal parsing, modelling `strconv` on canonically formatted input. -/
def intParse (cs : List Char) : Option Int :=
  match cs with
  | [] => none
  | c :: rest =>
    if c = '-' then (natParse rest).map (fun n => -(n : Int))
    else if c = '+' then (natParse rest).map (fun n => (n : Int))
    else (natParse cs).map (fun n => (n : Int))

/-- Signed decimal rendering, as Go's `%d` produces. -/
def intRender (i : Int) : List Char :=
  if i < 0 then '-' :: natRender (-i).toNat else natRender i.toNat

theorem intParse_intRender (i : Int) : intParse (intRender i) = some i := by
  by_cases h : i < 0
  · rw [intRender, if_pos h]
    have h1 : intParse ('-' :: natRender (-i).toNat) =
        (natParse (natRender (-i).toNat)).map (fun n => -(n : Int)) := by
      simp [intParse]
    rw [h1, natParse_natRender]
    simp
    omega
  · rw [intRender, if_neg h]
    obtain ⟨d, t, hdlt, ht⟩ := natRender_head i.toNat
    rw [ht]
    have hm : digitCh d ≠ '-' := digitCh_ne_minus_fin ⟨d, hdlt⟩
    have hp : digitCh d ≠ '+' := digitCh_ne_plus_fin ⟨d, hdlt⟩
    have h1 : intParse (digitCh d :: t) = (natParse (digitCh d :: t)).map (fun n => (n : Int)) := by
      simp [intParse, hm, hp]
    rw [h1, ← ht, natParse_natRender]
    simp
    omega

/-! ### Go `encoding/hex` -/

/-- Lowercase hex digit character, as Go's `hex.EncodeToString` produces. -/
def hexDigitCh (n : Nat) : Char :=
  if n < 10 then Char.ofNat (48 + n) else Char.ofNat (97 + (n - 10))

/-- Value of a hex digit; Go's `hex.DecodeString` accepts both letter cases. -/
def hexVal (c : Char) : Option Nat :=
  if 48 ≤ c.toNat ∧ c.toNat ≤ 57 then some (c.toNat - 48)
  else if 97 ≤ c.toNat ∧ c.toNat ≤ 102 then some (c.toNat - 97 + 10)
  else if 65 ≤ c.toNat ∧ c.toNat ≤ 70 then some (c.toNat - 65 + 10)
  else none

/-- A lowercase hex digit, as appears in keys produced by `hex.EncodeToString`. -/
def isLowerHexDigit (c : Char) : Bool :=
  (48 ≤ c.toNat && c.toNat ≤ 57) || (97 ≤ c.toNat && c.toNat ≤ 102)

theorem hexVal_hexDigitCh_fin : ∀ n : Fin 16, hexVal (hexDigitCh n.val) = some n.val := by
  decide

theorem isLowerHexDigit_hexDigitCh_fin : ∀ n : Fin 16, isLowerHexDigit (hexDigitCh n.val) = true := by
  decide

/-- A lowercase hex digit is recovered from its value: `hexDigitCh` inverts
`hexVal` on the lowercase range. Established by checking all candidates. -/
theorem hexDigitCh_hexVal (c : Char) (hc : isLowerHexDigit c = true) :
    ∃ v, v < 16 ∧ hexVal c = some v ∧ hexDigitCh v = c := by
  simp only [isLowerHexDigit, Bool.or_eq_true, Bool.and_eq_true, decide_eq_true_eq] at hc
  rcases hc with ⟨h1, h2⟩ | ⟨h1, h2⟩
  · refine ⟨c.toNat - 48, by omega, ?_, ?_⟩
    · simp [hexVal]; omega
    · have : c.toNat - 48 < 10 := by omega
      simp only [hexDigitCh, if_pos this]
      have : 48 + (c.toNat - 48) = c.toNat := by omega
      rw [this]
      exact Char.ofNat_toNat c
  · refine ⟨c.toNat - 97 + 10, by omega, ?_, ?_⟩
    · simp only [hexVal]
      rw [if_neg (by omega), if_pos (by omega)]
    · have h3 : ¬ (c.toNat - 97 + 10 < 10) := by omega
      simp only [hexDigitCh, if_neg h3]
      have : 97 + (c.toNat - 97 + 10 - 10) = c.toNat := by omega
      rw [this]
      exact Char.ofNat_toNat c

/-- Go's `hex.EncodeToString`, over byte lists. -/
def hexEncode : List Nat → List Char
  | [] => []
  | b :: bs => hexDigitCh (b / 16) :: hexDigitCh (b % 16) :: hexEncode bs

/-- Go's `hex.DecodeString`, over byte lists (odd length is an error). -/
def hexDecode : List Char → Option (List Nat)
  | [] => some []
  | [_] => none
  | c1 :: c2 :: cs => do
    let v1 ← hexVal c1
    let v2 ← hexVal c2
    let rest ← hexDecode cs
    pure ((v1 * 16 + v2) :: rest)

theorem hexDecode_hexEncode : ∀ bs : List Nat, (∀ b ∈ bs, b < 256) →
    hexDecode (hexEncode bs) = some bs
  | [], _ => rfl
  | b :: bs, h => by
    have hb : b < 256 := h b (by simp)
    have h1 : b / 16 < 16 := by omega
    have h2 : b % 16 < 16 := by omega
    have ih := hexDecode_hexEncode bs (fun x hx => h x (by simp [hx]))
    simp only [hexEncode, hexDecode, hexVal_hexDigitCh_fin ⟨b / 16, h1⟩,
      hexVal_hexDigitCh_fin ⟨b % 16, h2⟩, ih]
    simp only [Option.bind_eq_bind, Option.some_bind, Option.pure_def]
    have hb2 : b / 16 * 16 + b % 16 = b := by omega
    rw [hb2]

theorem hexEncode_hexDecode : ∀ cs : List Char, (∀ c ∈ cs, isLowerHexDigit c = true) →
    ∀ bs, hexDecode cs = some bs → hexEncode bs = cs
  | [], _, bs, h => by
    simp only [hexDecode, Option.some.injEq] at h
    rw [← h]; rfl
  | [c], _, bs, h => by simp [hexDecode] at h
  | c1 :: c2 :: cs, hlow, bs, h => by
    obtain ⟨v1, hv1lt, hv1, hch1⟩ := hexDigitCh_hexVal c1 (hlow c1 (by simp))
    obtain ⟨v2, hv2lt, hv2, hch2⟩ := hexDigitCh_hexVal c2 (hlow c2 (by simp))
    simp only [hexDecode, hv1, hv2, Option.bind_eq_bind, Option.some_bind] at h
    cases hrest : hexDecode cs with
    | none => rw [hrest] at h; simp at h
    | some rest =>
      rw [hrest] at h
      simp only [Option.some_bind, Option.pure_def, Option.some.injEq] at h
      have ih := hexEncode_hexDecode cs (fun x hx => hlow x (by simp [hx])) rest hrest
      rw [← h]
      simp only [hexEncode, ih]
      have e1 : (v1 * 16 + v2) / 16 = v1 := by omega
      have e2 : (v1 * 16 + v2) % 16 = v2 := by omega
      rw [e1, e2, hch1, hch2]

theorem hexDecode_bytes_lt : ∀ cs bs, hexDecode cs = some bs → ∀ b ∈ bs, b < 256
  | [], bs, h => by
    simp only [hexDecode, Option.some.injEq] at h
    rw [← h]; simp
  | [_], bs, h => by simp [hexDecode] at h
  | c1 :: c2 :: cs, bs, h => by
    cases hv1 : hexVal c1 with
    | none => rw [hexDecode, hv1] at h; simp at h
    | some v1 =>
      cases hv2 : hexVal c2 with
      | none => rw [hexDecode, hv1, hv2] at h; simp at h
      | some v2 =>
        cases hrest : hexDecode cs with
        | none => rw [hexDecode, hv1, hv2, hrest] at h; simp at h
        | some rest =>
          rw [hexDecode, hv1, hv2, hrest] at h
          simp only [Option.bind_eq_bind, Option.some_bind, Option.pure_def,
            Option.some.injEq] at h
          have hlt1 : v1 < 16 := by
            simp only [hexVal] at hv1
            split at hv1 <;> try split at hv1
            all_goals first
              | (simp only [Option.some.injEq] at hv1; omega)
              | (split at hv1
                 · simp only [Option.some.injEq] at hv1; omega
                 · simp at hv1)
          have hlt2 : v2 < 16 := by
            simp only [hexVal] at hv2
            split at hv2 <;> try split at hv2
            all_goals first
              | (simp only [Option.some.injEq] at hv2; omega)
              | (split at hv2
                 · simp only [Option.some.injEq] at hv2; omega
                 · simp at hv2)
          intro b hb
          rw [← h] at hb
          rcases List.mem_cons.mp hb with hb | hb
          · omega
          · exact hexDecode_bytes_lt cs rest hrest b hb

theorem hexDecode_length : ∀ cs bs, hexDecode cs = some bs → cs.length = 2 * bs.length
  | [], bs, h => by
    simp only [hexDecode, Option.some.injEq] at h
    rw [← h]; rfl
  | [_], bs, h => by simp [hexDecode] at h
  | c1 :: c2 :: cs, bs, h => by
    cases hv1 : hexVal c1 with
    | none => rw [hexDecode, hv1] at h; simp at h
    | some v1 =>
      cases hv2 : hexVal c2 with
      | none => rw [hexDecode, hv1, hv2] at h; simp at h
      | some v2 =>
        cases hrest : hexDecode cs with
        | none => rw [hexDecode, hv1, hv2, hrest] at h; simp at h
        | some rest =>
          rw [hexDecode, hv1, hv2, hrest] at h
          simp only [Option.bind_eq_bind, Option.some_bind, Option.pure_def,
            Option.some.injEq] at h
          have ih := hexDecode_length cs rest hrest
          rw [← h]
          simp [ih]
          omega

/-! ### Go `encoding/base64` (StdEncoding) -/

/-- Character of a base64 sextet, per the standard alphabet. -/
def b64CharOf (n : Nat) : Char :=
  if n < 26 then Char.ofNat (65 + n)
  else if n < 52 then Char.ofNat (97 + (n - 26))
  else if n < 62 then Char.ofNat (48 + (n - 52))
  else if n = 62 then '+' else '/'

/-- Sextet value of a base64 character, `none` for characters outside the
standard alphabet (including the padding character). -/
def b64ValOf (c : Char) : Option Nat :=
  if 65 ≤ c.toNat ∧ c.toNat ≤ 90 then some (c.toNat - 65)
  else if 97 ≤ c.toNat ∧ c.toNat ≤ 122 then some (c.toNat - 97 + 26)
  else if 48 ≤ c.toNat ∧ c.toNat ≤ 57 then some (c.toNat - 48 + 52)
  else if c = '+' then some 62
  else if c = '/' then some 63
  else none

theorem b64ValOf_b64CharOf_fin : ∀ n : Fin 64, b64ValOf (b64CharOf n.val) = some n.val := by
  decide

theorem b64CharOf_ne_pad_fin : ∀ n : Fin 64, b64CharOf n.val ≠ '=' := by decide

theorem b64ValOf_lt (c : Char) (v : Nat) (h : b64ValOf c = some v) : v < 64 := by
  simp only [b64ValOf] at h
  split at h
  · simp only [Option.some.injEq] at h; omega
  · split at h
    · simp only [Option.some.injEq] at h; omega
    · split at h
      · simp only [Option.some.injEq] at h; omega
      · split at h
        · simp only [Option.some.injEq] at h; omega
        · split at h
          · simp only [Option.some.injEq] at h; omega
          · simp at h

/-- Go's `base64.StdEncoding.EncodeToString`, over byte lists. -/
def b64Encode : List Nat → List Char
  | [] => []
  | [a] => [b64CharOf (a / 4), b64CharOf (a % 4 * 16), '=', '=']
  | [a, b] => [b64CharOf (a / 4), b64CharOf (a % 4 * 16 + b / 16), b64CharOf (b % 16 * 4), '=']
  | a :: b :: c :: rest =>
      b64CharOf (a / 4) :: b64CharOf (a % 4 * 16 + b / 16) ::
        b64CharOf (b % 16 * 4 + c / 64) :: b64CharOf (c % 64) :: b64Encode rest

/-- Go's `base64.StdEncoding.DecodeString`, over byte lists: the input must be
a sequence of 4-character groups, with `=` padding only closing the final
group. -/
def b64Decode : List Char → Option (List Nat)
  | [] => some []
  | c1 :: c2 :: c3 :: c4 :: rest =>
    match b64ValOf c1, b64ValOf c2 with
    | some v1, some v2 =>
      if c3 = '=' then
        if c4 = '=' ∧ rest = [] then some [v1 * 4 + v2 / 16] else none
      else
        match b64ValOf c3 with
        | some v3 =>
          if c4 = '=' then
            if rest = [] then some [v1 * 4 + v2 / 16, v2 % 16 * 16 + v3 / 4] else none
          else
            match b64ValOf c4 with
            | some v4 =>
              (b64Decode rest).map
                (fun bs => (v1 * 4 + v2 / 16) :: (v2 % 16 * 16 + v3 / 4) ::
                  (v3 % 4 * 64 + v4) :: bs)
            | none => none
        | none => none
    | _, _ => none
  | _ => none

theorem b64Decode_b64Encode : ∀ bs : List Nat, (∀ b ∈ bs, b < 256) →
    b64Decode (b64Encode bs) = some bs
  | [], _ => rfl
  | [a], h => by
    have ha : a < 256 := h a (by simp)
    have h1 : a / 4 < 64 := by omega
    have h2 : a % 4 * 16 < 64 := by omega
    simp only [b64Encode, b64Decode, b64ValOf_b64CharOf_fin ⟨a / 4, h1⟩,
      b64ValOf_b64CharOf_fin ⟨a % 4 * 16, h2⟩]
    simp
    omega
  | [a, b], h => by
    have ha : a < 256 := h a (by simp)
    have hb : b < 256 := h b (by simp)
    have h1 : a / 4 < 64 := by omega
    have h2 : a % 4 * 16 + b / 16 < 64 := by omega
    have h3 : b % 16 * 4 < 64 := by omega
    have hne : b64CharOf (b % 16 * 4) ≠ '=' := b64CharOf_ne_pad_fin ⟨b % 16 * 4, h3⟩
    simp only [b64Encode, b64Decode, b64ValOf_b64CharOf_fin ⟨a / 4, h1⟩,
      b64ValOf_b64CharOf_fin ⟨a % 4 * 16 + b / 16, h2⟩,
      b64ValOf_b64CharOf_fin ⟨b % 16 * 4, h3⟩]
    simp [hne]
    constructor
    · omega
    · omega
  | a :: b :: c :: rest, h => by
    have ha : a < 256 := h a (by simp)
    have hb : b < 256 := h b (by simp)
    have hc : c < 256 := h c (by simp)
    have h1 : a / 4 < 64 := by omega
    have h2 : a % 4 * 16 + b / 16 < 64 := by omega
    have h3 : b % 16 * 4 + c / 64 < 64 := by omega
    have h4 : c % 64 < 64 := by omega
    have hne3 : b64CharOf (b % 16 * 4 + c / 64) ≠ '=' := b64CharOf_ne_pad_fin ⟨_, h3⟩
    have hne4 : b64CharOf (c % 64) ≠ '=' := b64CharOf_ne_pad_fin ⟨_, h4⟩
    have ih := b64Decode_b64Encode rest (fun x hx => h x (by simp [hx]))
    have hstep : b64Encode (a :: b :: c :: rest) =
        b64CharOf (a / 4) :: b64CharOf (a % 4 * 16 + b / 16) ::
          b64CharOf (b % 16 * 4 + c / 64) :: b64CharOf (c % 64) :: b64Encode rest := by
      rfl
    rw [hstep]
    simp only [b64Decode, b64ValOf_b64CharOf_fin ⟨a / 4, h1⟩,
      b64ValOf_b64CharOf_fin ⟨a % 4 * 16 + b / 16, h2⟩,
      b64ValOf_b64CharOf_fin ⟨b % 16 * 4 + c / 64, h3⟩,
      b64ValOf_b64CharOf_fin ⟨c % 64, h4⟩, if_neg hne3, if_neg hne4, ih]
    simp
    refine ⟨by omega, by omega, by omega⟩

theorem b64Decode_bytes_lt : ∀ cs bs, b64Decode cs = some bs → ∀ b ∈ bs, b < 256
  | [], bs, h => by
    simp only [b64Decode, Option.some.injEq] at h
    rw [← h]; simp
  | [_], bs, h => by simp [b64Decode] at h
  | [_, _], bs, h => by simp [b64Decode] at h
  | [_, _, _], bs, h => by simp [b64Decode] at h
  | c1 :: c2 :: c3 :: c4 :: rest, bs, h => by
    cases hv1 : b64ValOf c1 with
    | none =>
      simp only [b64Decode, hv1] at h
      exact Option.noConfusion h
    | some v1 =>
      cases hv2 : b64ValOf c2 with
      | none =>
        simp only [b64Decode, hv1, hv2] at h
        exact Option.noConfusion h
      | some v2 =>
        simp only [b64Decode, hv1, hv2] at h
        have hb1 := b64ValOf_lt c1 v1 hv1
        have hb2 := b64ValOf_lt c2 v2 hv2
        by_cases hc3 : c3 = '='
        · rw [if_pos hc3] at h
          by_cases hc4 : c4 = '=' ∧ rest = []
          · rw [if_pos hc4] at h
            simp only [Option.some.injEq] at h
            rw [← h]
            intro b hb
            simp only [List.mem_singleton] at hb
            omega
          · rw [if_neg hc4] at h; cases h
        · rw [if_neg hc3] at h
          cases hv3 : b64ValOf c3 with
          | none =>
            simp only [hv3] at h
            exact Option.noConfusion h
          | some v3 =>
            simp only [hv3] at h
            have hb3 := b64ValOf_lt c3 v3 hv3
            by_cases hc4 : c4 = '='
            · rw [if_pos hc4] at h
              by_cases hr : rest = []
              · rw [if_pos hr] at h
                simp only [Option.some.injEq] at h
                rw [← h]
                intro b hb
                simp only [List.mem_cons, List.mem_singleton, List.not_mem_nil,
                  or_false] at hb
                rcases hb with hb | hb <;> omega
              · rw [if_neg hr] at h; cases h
            · rw [if_neg hc4] at h
              cases hv4 : b64ValOf c4 with
              | none =>
                simp only [hv4] at h
                exact Option.noConfusion h
              | some v4 =>
                simp only [hv4] at h
                have hb4 := b64ValOf_lt c4 v4 hv4
                cases hrec : b64Decode rest with
                | none =>
                  rw [hrec] at h
                  exact Option.noConfusion h
                | some tail =>
                  rw [hrec] at h
                  simp only [Option.map_some', Option.some.injEq] at h
                  rw [← h]
                  intro b hb
                  simp only [List.mem_cons] at hb
                  rcases hb with hb | hb | hb | hb
                  · omega
                  · omega
                  · omega
                  · exact b64Decode_bytes_lt rest tail hrec b hb

/-! ## Strings: whitespace trimming and splitting (Go `strings`) -/

/-- Whitespace as far as the trimming done here is concerned. -/
def isWS (c : Char) : Bool := c = ' ' || c = '\t'

def trimL (s : List Char) : List Char := s.dropWhile isWS

def trimR (s : List Char) : List Char := (s.reverse.dropWhile isWS).reverse

/-- Go's `strings.TrimSpace` (restricted to blanks and tabs). -/
def trim (s : List Char) : List Char := trimR (trimL s)

/-- `strings.Split` on a single comma. -/
def splitOnComma : List Char → List (List Char)
  | [] => [[]]
  | c :: cs =>
    match splitOnComma cs with
    | [] => [[c]]
    | p :: ps => if c = ',' then [] :: p :: ps else (c :: p) :: ps

/-- `strings.Join` with a separator. -/
def joinSep (sep : List Char) : List (List Char) → List Char
  | [] => []
  | [x] => x
  | x :: xs => x ++ sep ++ joinSep sep xs

def lower (s : List Char) : List Char := s.map Char.toLower

/-! ## INI documents: a model of go-ini (`ini.LoadSources` with the options
`Insensitive`, `AllowShadows`, `AllowNonUniqueSections`, as `ParseConfig`
passes them)

A document is a list of lines (the `\n`-separated pieces of the text).
Section and key names are stored lowercased (Insensitive); repeated keys are
kept in order (AllowShadows); repeated sections are kept in order
(AllowNonUniqueSections). Inline comments (`;`/`#`) cut a value short;
quoting is not modelled, so values are taken verbatim after trimming. -/

/-- One classified line of an INI document. -/
inductive IniLine where
  | blank
  | header (name : List Char)
  | kv (key value : List Char)
deriving DecidableEq

/-- Split a line at its first `=`. -/
def splitFirstEq : List Char → Option (List Char × List Char)
  | [] => none
  | c :: cs =>
    if c = '=' then some ([], cs)
    else
      match splitFirstEq cs with
      | some (k, v) => some (c :: k, v)
      | none => none

/-- Cut a raw value at the first inline-comment character. -/
def cutComment : List Char → List Char
  | [] => []
  | c :: cs => if c = ';' || c = '#' then [] else c :: cutComment cs

/-- Classify one line: blank/comment, `[Section]` header, or `key = value`. -/
def parseLine (l : List Char) : Option IniLine :=
  match trim l with
  | [] => some IniLine.blank
  | c :: cs =>
    if c = ';' || c = '#' then some IniLine.blank
    else if c = '[' then
      match cs.reverse with
      | b :: revInit =>
        if b = ']' then some (IniLine.header (lower (trim revInit.reverse))) else none
      | [] => none
    else
      match splitFirstEq (c :: cs) with
      | some (k, v) =>
        let key := lower (trim k)
        if key = [] then none else some (IniLine.kv key (trim (cutComment v)))
      | none => none

/-- A parsed section: its (lowercased) name and its key/value pairs in order. -/
abbrev IniSec := List Char × List (List Char × List Char)

/-- Line-by-line accumulation of sections. -/
def iniAux : List (List Char) → List Char → List (List Char × List Char) →
    List IniSec → Option (List IniSec)
  | [], cur, kvs, acc => some (acc ++ [(cur, kvs)])
  | l :: ls, cur, kvs, acc =>
    match parseLine l with
    | none => none
    | some IniLine.blank => iniAux ls cur kvs acc
    | some (IniLine.header n) => iniAux ls n [] (acc ++ [(cur, kvs)])
    | some (IniLine.kv k v) => iniAux ls cur (kvs ++ [(k, v)]) acc

/-- Parse an INI document (given as its list of lines). -/
def iniParse (ls : List (List Char)) : Option (List IniSec) :=
  iniAux ls ("default".toList) [] []

/-- All raw values of a key within a section, in order. -/
def valuesOfKey (k : List Char) (kvs : List (List Char × List Char)) : List (List Char) :=
  (kvs.filter (fun p => p.1 == k)).map (fun p => p.2)

/-- go-ini `Key.ValueWithShadows`: all values of the key, skipping empty ones. -/
def valueWithShadows (k : List Char) (kvs : List (List Char × List Char)) : List (List Char) :=
  (valuesOfKey k kvs).filter (fun v => !v.isEmpty)

/-- go-ini `Section.GetKey` succeeding. -/
def keyPresent (k : List Char) (kvs : List (List Char × List Char)) : Bool :=
  kvs.any (fun p => p.1 == k)

/-- go-ini `Key.String`: the root (first) value, or empty when absent. -/
def keyString (k : List Char) (kvs : List (List Char × List Char)) : List Char :=
  (valuesOfKey k kvs).headD []

/-- go-ini `Key.StringsWithShadows(",")`: every shadow value split on commas,
each piece trimmed. -/
def stringsWithShadows (k : List Char) (kvs : List (List Char × List Char)) :
    List (List Char) :=
  ((valueWithShadows k kvs).map (fun v => (splitOnComma v).map trim)).flatten

/-- go-ini `File.SectionsByName` under `Insensitive` (names stored lowercase). -/
def sectionsByName (n : List Char) (secs : List IniSec) : List IniSec :=
  secs.filter (fun s => s.1 == n)

/-! ## The configuration model (`config.go`, the `[]netip.Prefix` variant)

`netip.Addr` and `netip.Prefix` are external; they appear as type parameters
`α` and `π` together with their printing/parsing functions, which the
round-trip theorem constrains by explicit hypotheses. -/

/-- `PeerConfig` from config.go. -/
structure PeerConfig (π : Type) where
  publicKey : List Char
  preSharedKey : List Char
  endpoint : List Char
  keepAlive : Int
  allowedIPs : List π
deriving DecidableEq

/-- `InterfaceConfig` from config.go (the `[]netip.Prefix` variant). -/
structure InterfaceConfig (π α : Type) where
  privateKey : List Char
  addresses : List π
  dns : List α
  mtu : Int
  fwMark : Nat
deriving DecidableEq

/-- `Configuration` from config.go. -/
structure Configuration (π α : Type) where
  iface : InterfaceConfig π α
  peers : List (PeerConfig π)
deriving DecidableEq

/-- The 64-zero hex string, the default `PreSharedKey` in `ParsePeers`. -/
def zeros64 : List Char := List.replicate 64 '0'

/-- `EncodeBase64ToHex` from config.go: strict base64 decode, 32-byte length
check, lowercase hex encode. -/
def encodeBase64ToHex (key : List Char) : Option (List Char) :=
  match b64Decode key with
  | none => none
  | some decoded => if decoded.length ≠ 32 then none else some (hexEncode decoded)

/-- Modelled from the spec: `EncodeHexToBase64` is called by
`Configuration.String` but its definition is absent from src/; keys are
stored as lowercase hex of 32 bytes and re-encoded as standard base64 of the
decoded bytes. -/
def encodeHexToBase64 (key : List Char) : Option (List Char) :=
  (hexDecode key).map b64Encode

/-- One `Key = value` line as `Configuration.String` writes it. -/
def kvLine (k v : List Char) : List Char := k ++ (" = ".toList) ++ v

section ConfigModel

variable {π α : Type}

/-- The `[Interface]` key/value pairs written by `Configuration.String`,
in order, with the conditional omissions of the source. -/
def renderInterfaceKvs (printPfx : π → List Char) (printAddr : α → List Char)
    (i : InterfaceConfig π α) : Option (List (List Char × List Char)) :=
  (if i.privateKey = [] then some []
   else (encodeHexToBase64 i.privateKey).map (fun b => [(("PrivateKey").toList, b)])).bind
  (fun pk =>
    let addr :=
      if i.addresses.isEmpty then []
      else [(("Address").toList, joinSep ((", ").toList) (i.addresses.map printPfx))]
    let dns :=
      if i.dns.isEmpty then []
      else [(("DNS").toList, joinSep ((", ").toList) (i.dns.map printAddr))]
    let mtu := if i.mtu = 0 then [] else [(("MTU").toList, intRender i.mtu)]
    some (pk ++ addr ++ dns ++ mtu))

/-- The `[Peer]` key/value pairs written by `Configuration.String` for one
peer, in order, with the conditional omissions of the source (note the
all-zero pre-shared key is omitted). -/
def renderPeerKvs (printPfx : π → List Char) (p : PeerConfig π) :
    Option (List (List Char × List Char)) :=
  (if p.publicKey = [] then some []
   else (encodeHexToBase64 p.publicKey).map (fun b => [(("PublicKey").toList, b)])).bind
  (fun pk =>
    (if p.preSharedKey ≠ [] ∧ p.preSharedKey ≠ zeros64 then
       (encodeHexToBase64 p.preSharedKey).map (fun b => [(("PresharedKey").toList, b)])
     else some []).bind
    (fun psk =>
      let ips :=
        if p.allowedIPs.isEmpty then []
        else [(("AllowedIPs").toList, joinSep ((", ").toList) (p.allowedIPs.map printPfx))]
      let ep := if p.endpoint = [] then [] else [(("Endpoint").toList, p.endpoint)]
      let ka :=
        if p.keepAlive = 0 then []
        else [(("PersistentKeepalive").toList, intRender p.keepAlive)]
      some (pk ++ psk ++ ips ++ ep ++ ka)))

/-- `Configuration.String` from config.go, as the list of lines of its output:
the `[Interface]` header and key lines, then for every peer a blank line, a
`[Peer]` header and its key lines. -/
def renderConfig (printPfx : π → List Char) (printAddr : α → List Char)
    (c : Configuration π α) : Option (List (List Char)) :=
  (renderInterfaceKvs printPfx printAddr c.iface).bind
  (fun ikvs =>
    (c.peers.mapM (renderPeerKvs printPfx)).bind
    (fun pkvs =>
      some ((("[Interface]").toList :: ikvs.map (fun p => kvLine p.1 p.2)) ++
        (pkvs.map (fun kvs =>
          [] :: ("[Peer]").toList :: kvs.map (fun p => kvLine p.1 p.2))).flatten)))

/-- The `Address` entries of `ParseInterface`: try `netip.ParsePrefix`, fall
back to `netip.ParseAddr` widened to a full-length single-address prefix. -/
def parsePfxOrAddr (parsePfx : List Char → Option π) (parseAddr : List Char → Option α)
    (widen : α → π) (str : List Char) : Option π :=
  match parsePfx (trim str) with
  | some p => some p
  | none => (parseAddr (trim str)).map widen

/-- The per-section body of `ParseInterface` from config.go (the
`[]netip.Prefix` variant): read `Address` (with shadows), `PrivateKey`
(required, base64 of 32 bytes), then optional `DNS`, `MTU` and `FwMark`
(converted to `uint32`). -/
def parseIfaceKvs (parsePfx : List Char → Option π) (parseAddr : List Char → Option α)
    (widen : α → π) (kvs : List (List Char × List Char)) :
    Option (InterfaceConfig π α) :=
  ((stringsWithShadows (("address").toList) kvs).mapM
    (parsePfxOrAddr parsePfx parseAddr widen)).bind
  (fun addresses =>
    (encodeBase64ToHex (keyString (("privatekey").toList) kvs)).bind
    (fun pkHex =>
      (if keyPresent (("dns").toList) kvs then
        (stringsWithShadows (("dns").toList) kvs).mapM parseAddr
       else some []).bind
      (fun dns =>
        (if keyPresent (("mtu").toList) kvs then
          intParse (keyString (("mtu").toList) kvs)
         else some 0).bind
        (fun mtu =>
          (if keyPresent (("fwmark").toList) kvs then
            (intParse (keyString (("fwmark").toList) kvs)).map
              (fun i => (i % 4294967296).toNat)
           else some 0).bind
          (fun fw => some ⟨pkHex, addresses, dns, mtu, fw⟩)))))

/-- `ParseInterface` from config.go: exactly one `[Interface]` section. -/
def parseInterfaceC (parsePfx : List Char → Option π) (parseAddr : List Char → Option α)
    (widen : α → π) (secs : List IniSec) : Option (InterfaceConfig π α) :=
  match sectionsByName (("interface").toList) secs with
  | [sec] => parseIfaceKvs parsePfx parseAddr widen sec.2
  | _ => none

/-- `ParsePeers` from config.go, for one `[Peer]` section. -/
def parsePeerSec (parsePfx : List Char → Option π)
    (kvs : List (List Char × List Char)) : Option (PeerConfig π) :=
  (if keyPresent (("publickey").toList) kvs then
    encodeBase64ToHex (keyString (("publickey").toList) kvs)
   else some []).bind
  (fun pk =>
    (if keyPresent (("presharedkey").toList) kvs then
      encodeBase64ToHex (keyString (("presharedkey").toList) kvs)
     else some zeros64).bind
    (fun psk =>
      (if keyPresent (("persistentkeepalive").toList) kvs then
        intParse (keyString (("persistentkeepalive").toList) kvs)
       else some 0).bind
      (fun ka =>
        (if keyPresent (("allowedips").toList) kvs then
          (stringsWithShadows (("allowedips").toList) kvs).mapM parsePfx
         else some []).bind
        (fun ips =>
          let ep :=
            if keyPresent (("endpoint").toList) kvs then
              keyString (("endpoint").toList) kvs
            else []
          some ⟨pk, psk, ep, ka, ips⟩))))

/-- `ParsePeers` from config.go: at least one `[Peer]` section, each parsed
in order. -/
def parsePeersC (parsePfx : List Char → Option π) (secs : List IniSec) :
    Option (List (PeerConfig π)) :=
  let sections := sectionsByName (("peer").toList) secs
  if sections.length < 1 then none
  else sections.mapM (fun sec => parsePeerSec parsePfx sec.2)

/-- `ParseConfig` from config.go, over a document given as its lines. -/
def parseConfigC (parsePfx : List Char → Option π) (parseAddr : List Char → Option α)
    (widen : α → π) (doc : List (List Char)) : Option (Configuration π α) :=
  (iniParse doc).bind
  (fun secs =>
    (parseInterfaceC parsePfx parseAddr widen secs).bind
    (fun iface =>
      (parsePeersC parsePfx secs).bind
      (fun peers => some ⟨iface, peers⟩)))

end ConfigModel

/-! ## Cleanliness predicates and trimming/splitting lemmas -/

/-- Characters that interact with no INI parsing rule. -/
def cleanChar (c : Char) : Bool :=
  !(isWS c) && !(c = Char.ofNat 10) && !(c = ';') && !(c = '#') &&
    !(c = '"') && !(c = Char.ofNat 39)

/-- A list token (one address/prefix rendering): non-empty, clean, comma-free. -/
def cleanTok (s : List Char) : Bool :=
  !s.isEmpty && s.all (fun c => cleanChar c && !(c = ','))

/-- A stand-alone value (such as an endpoint): non-empty and clean. -/
def cleanVal (s : List Char) : Bool := !s.isEmpty && s.all cleanChar

/-- What the key/value line lemma needs of the rendered value: non-empty,
not starting or ending in whitespace, and free of newline/comment characters. -/
def okVal (s : List Char) : Bool :=
  !s.isEmpty && !(isWS (s.headD ' ')) && !(isWS (s.getLastD ' ')) &&
    s.all (fun c => !(c = Char.ofNat 10) && !(c = ';') && !(c = '#'))

theorem getLastD_mem : ∀ (s : List Char) (d : Char), s ≠ [] → s.getLastD d ∈ s
  | [], _, h => absurd rfl h
  | [a], _, _ => by simp
  | a :: b :: t, d, _ => by
    rw [List.getLastD_cons]
    have := getLastD_mem (b :: t) a (by simp)
    simp only [List.mem_cons] at this ⊢
    tauto

theorem cleanChar_spec (c : Char) (h : cleanChar c = true) :
    isWS c = false ∧ ¬(c = Char.ofNat 10) ∧ ¬(c = ';') ∧ ¬(c = '#') := by
  refine ⟨?_, ?_, ?_, ?_⟩
  · cases hw : isWS c
    · rfl
    · rw [cleanChar, hw] at h; simp at h
  · intro he
    rw [cleanChar, he] at h
    simp at h
  · intro he
    rw [cleanChar, he] at h
    simp [isWS] at h
  · intro he
    rw [cleanChar, he] at h
    simp [isWS] at h

theorem cleanTok_spec (s : List Char) (h : cleanTok s = true) :
    s ≠ [] ∧ ∀ c ∈ s, cleanChar c = true ∧ ¬(c = ',') := by
  simp only [cleanTok, Bool.and_eq_true, List.all_eq_true] at h
  refine ⟨by simpa using h.1, ?_⟩
  intro c hc
  have h2 := h.2 c hc
  constructor
  · cases hcl : cleanChar c
    · rw [hcl] at h2; simp at h2
    · rfl
  · intro he
    rw [he] at h2
    simp at h2

theorem cleanVal_spec (s : List Char) (h : cleanVal s = true) :
    s ≠ [] ∧ ∀ c ∈ s, cleanChar c = true := by
  simp only [cleanVal, Bool.and_eq_true, List.all_eq_true] at h
  exact ⟨by simpa using h.1, h.2⟩

theorem okVal_of_cleanVal (s : List Char) (h : cleanVal s = true) : okVal s = true := by
  obtain ⟨hne, hall⟩ := cleanVal_spec s h
  cases s with
  | nil => exact absurd rfl hne
  | cons c cs =>
    have hhead := cleanChar_spec c (hall c (by simp))
    have hlmem : (c :: cs).getLastD ' ' ∈ c :: cs := getLastD_mem _ ' ' (by simp)
    have hlast := cleanChar_spec _ (hall _ hlmem)
    simp only [okVal, Bool.and_eq_true]
    refine ⟨⟨⟨?_, ?_⟩, ?_⟩, ?_⟩
    · simp
    · simp [List.headD_cons, hhead.1]
    · simp [← List.getLastD_eq_getLast?, hlast.1]
    · simp only [List.all_eq_true]
      intro x hx
      have hs := cleanChar_spec x (hall x hx)
      simp [hs.2.1, hs.2.2.1, hs.2.2.2]

theorem trimL_eq (s : List Char) (h : isWS (s.headD 'x') = false) : trimL s = s := by
  cases s with
  | nil => rfl
  | cons c cs =>
    simp only [List.headD_cons] at h
    simp [trimL, List.dropWhile_cons, h]

theorem trimR_eq (s : List Char) (h : isWS (s.getLastD 'x') = false) : trimR s = s := by
  cases hs : s.reverse with
  | nil =>
    have hn : s = [] := by simpa using congrArg List.reverse hs
    simp [trimR, hn]
  | cons c cs =>
    have hcs : s = (c :: cs).reverse := by rw [← hs, List.reverse_reverse]
    have hc : s.getLastD 'x' = c := by
      rw [hcs]
      simp [List.getLastD_eq_getLast?, List.getLast?_reverse]
    have h2 : isWS c = false := by rw [← hc]; exact h
    rw [trimR, hs, List.dropWhile_cons, h2]
    simp only [Bool.false_eq_true, if_false]
    rw [← hs, List.reverse_reverse]

theorem trim_eq (s : List Char) (h1 : isWS (s.headD 'x') = false)
    (h2 : isWS (s.getLastD 'x') = false) : trim s = s := by
  rw [trim, trimL_eq s h1, trimR_eq s h2]

theorem trim_nil : trim [] = [] := rfl

theorem trimL_cons_ws (c : Char) (s : List Char) (h : isWS c = true) :
    trimL (c :: s) = trimL s := by
  simp [trimL, List.dropWhile_cons, h]

theorem trim_cons_ws (c : Char) (s : List Char) (h : isWS c = true) :
    trim (c :: s) = trim s := by
  rw [trim, trim, trimL_cons_ws c s h]

theorem trimR_append_ws (s : List Char) (c : Char) (h : isWS c = true) :
    trimR (s ++ [c]) = trimR s := by
  rw [trimR, trimR, List.reverse_append]
  simp [List.dropWhile_cons, h]

theorem noWS_of_cleanTok (s : List Char) (h : cleanTok s = true) :
    ∀ c ∈ s, isWS c = false := by
  intro c hc
  exact (cleanChar_spec c ((cleanTok_spec s h).2 c hc).1).1

theorem noComma_of_cleanTok (s : List Char) (h : cleanTok s = true) :
    ∀ c ∈ s, (c = ',') = False := by
  intro c hc
  exact eq_false ((cleanTok_spec s h).2 c hc).2

theorem trim_eq_of_noWS (s : List Char) (h : ∀ c ∈ s, isWS c = false) : trim s = s := by
  apply trim_eq
  · cases s with
    | nil => rfl
    | cons c cs => simpa using h c (by simp)
  · cases s with
    | nil => rfl
    | cons c cs => exact h _ (getLastD_mem _ 'x' (by simp))

theorem splitOnComma_ne_nil (s : List Char) : splitOnComma s ≠ [] := by
  cases s with
  | nil => simp [splitOnComma]
  | cons c cs =>
    rw [splitOnComma]
    cases h : splitOnComma cs with
    | nil => simp
    | cons p ps =>
      by_cases hc : c = ',' <;> simp [hc]

theorem splitOnComma_append (t rest : List Char) (p : List Char) (ps : List (List Char))
    (hnc : ∀ c ∈ t, (c = ',') = False) (hrest : splitOnComma rest = p :: ps) :
    splitOnComma (t ++ rest) = (t ++ p) :: ps := by
  induction t with
  | nil => simpa using hrest
  | cons c cs ih =>
    have hc : ¬ (c = ',') := by simp [hnc c (by simp)]
    rw [List.cons_append, splitOnComma]
    rw [ih (fun x hx => hnc x (by simp [hx]))]
    simp [hc]

theorem trim_tok (s : List Char) (h : cleanTok s = true) : trim s = s :=
  trim_eq_of_noWS s (noWS_of_cleanTok s h)

/-- Splitting a comma-joined list of clean tokens and trimming each piece
recovers the tokens. -/
theorem splitJoin_toks : ∀ toks : List (List Char), toks ≠ [] →
    (∀ t ∈ toks, cleanTok t = true) →
    (splitOnComma (joinSep ((", ").toList) toks)).map trim = toks
  | [], h, _ => absurd rfl h
  | [x], _, hc => by
    have hx := hc x (by simp)
    have h2 : splitOnComma (x ++ []) = (x ++ []) :: [] :=
      splitOnComma_append x [] [] [] (noComma_of_cleanTok x hx) rfl
    simp only [joinSep]
    rw [(by simp : x = x ++ ([] : List Char)), h2]
    simp [trim_tok x hx]
  | x :: y :: tl, _, hc => by
    have hx := hc x (by simp)
    have ih := splitJoin_toks (y :: tl) (by simp) (fun t ht => hc t (by simp [ht]))
    cases hJ : splitOnComma (joinSep ((", ").toList) (y :: tl)) with
    | nil => exact absurd hJ (splitOnComma_ne_nil _)
    | cons p ps =>
      rw [hJ] at ih
      have hstep : joinSep ((", ").toList) (x :: y :: tl) =
          x ++ (',' :: ' ' :: joinSep ((", ").toList) (y :: tl)) := by
        simp [joinSep]
      have hsplit2 : splitOnComma (' ' :: joinSep ((", ").toList) (y :: tl)) =
          (' ' :: p) :: ps := by
        rw [(rfl : (' ' :: joinSep ((", ").toList) (y :: tl)) =
          [' '] ++ joinSep ((", ").toList) (y :: tl))]
        exact splitOnComma_append [' '] _ p ps (by simp) hJ
      have hsplit1 : splitOnComma (',' :: ' ' :: joinSep ((", ").toList) (y :: tl)) =
          [] :: (' ' :: p) :: ps := by
        rw [splitOnComma, hsplit2]
        simp
      have hall : splitOnComma (x ++ (',' :: ' ' :: joinSep ((", ").toList) (y :: tl))) =
          (x ++ []) :: (' ' :: p) :: ps :=
        splitOnComma_append x _ [] ((' ' :: p) :: ps) (noComma_of_cleanTok x hx) hsplit1
      rw [hstep, hall]
      simp only [List.append_nil, List.map_cons]
      rw [trim_tok x hx]
      have htp : trim (' ' :: p) = trim p := trim_cons_ws ' ' p (by simp [isWS])
      simp only [List.map_cons] at ih
      obtain ⟨hp, hps⟩ := List.cons.inj ih
      rw [htp, hp, hps]

/-! ## Parsing the rendered lines -/

/-- A key name as written by the renderer: non-empty, free of whitespace and
of every character the line classifier reacts to. -/
def cleanKey (k : List Char) : Bool :=
  !k.isEmpty && k.all (fun c =>
    !(isWS c) && !(c = '=') && !(c = '[') && !(c = ';') && !(c = '#'))

theorem cleanKey_spec (k : List Char) (h : cleanKey k = true) :
    k ≠ [] ∧ ∀ c ∈ k, isWS c = false ∧ ¬(c = '=') ∧ ¬(c = '[') ∧ ¬(c = ';') ∧ ¬(c = '#') := by
  simp only [cleanKey, Bool.and_eq_true, List.all_eq_true] at h
  refine ⟨by simpa using h.1, ?_⟩
  intro c hc
  have h2 := h.2 c hc
  refine ⟨?_, ?_, ?_, ?_, ?_⟩
  · cases hw : isWS c
    · rfl
    · rw [hw] at h2; simp at h2
  all_goals intro he; rw [he] at h2; simp [isWS] at h2

theorem getLastD_append (xs ys : List Char) (d : Char) (h : ys ≠ []) :
    (xs ++ ys).getLastD d = ys.getLastD d := by
  simp only [List.getLastD_eq_getLast?]
  rw [List.getLast?_append_of_ne_nil xs h]

theorem getLastD_irrel (s : List Char) (h : s ≠ []) (d1 d2 : Char) :
    s.getLastD d1 = s.getLastD d2 := by
  cases hl : s.getLast? with
  | none => exact absurd (List.getLast?_eq_none_iff.mp hl) h
  | some a => simp [List.getLastD_eq_getLast?, hl]

theorem headD_irrel (s : List Char) (h : s ≠ []) (d1 d2 : Char) :
    s.headD d1 = s.headD d2 := by
  cases s with
  | nil => exact absurd rfl h
  | cons a b => rfl

theorem iniAux_blank_step (l : List Char) (ls : List (List Char)) (cur : List Char)
    (kvs : List (List Char × List Char)) (acc : List IniSec)
    (h : parseLine l = some IniLine.blank) :
    iniAux (l :: ls) cur kvs acc = iniAux ls cur kvs acc := by
  rw [iniAux, h]

theorem iniAux_header_step (l : List Char) (ls : List (List Char)) (cur n : List Char)
    (kvs : List (List Char × List Char)) (acc : List IniSec)
    (h : parseLine l = some (IniLine.header n)) :
    iniAux (l :: ls) cur kvs acc = iniAux ls n [] (acc ++ [(cur, kvs)]) := by
  rw [iniAux, h]

theorem iniAux_kv_step (l : List Char) (ls : List (List Char)) (cur k v : List Char)
    (kvs : List (List Char × List Char)) (acc : List IniSec)
    (h : parseLine l = some (IniLine.kv k v)) :
    iniAux (l :: ls) cur kvs acc = iniAux ls cur (kvs ++ [(k, v)]) acc := by
  rw [iniAux, h]

theorem splitFirstEq_append (t rest : List Char) (h : ∀ c ∈ t, ¬(c = '=')) :
    splitFirstEq (t ++ rest) =
      (splitFirstEq rest).map (fun pr => (t ++ pr.1, pr.2)) := by
  induction t with
  | nil =>
    cases h2 : splitFirstEq rest with
    | none => simp [h2]
    | some pr => simp [h2]
  | cons c cs ih =>
    have hc : ¬(c = '=') := h c (by simp)
    rw [List.cons_append, splitFirstEq, if_neg hc, ih (fun x hx => h x (by simp [hx]))]
    cases h2 : splitFirstEq rest with
    | none => simp
    | some pr => simp

theorem cutComment_eq_self (v : List Char)
    (h : ∀ c ∈ v, ¬(c = ';') ∧ ¬(c = '#')) : cutComment v = v := by
  induction v with
  | nil => rfl
  | cons c cs ih =>
    have hc := h c (by simp)
    rw [cutComment]
    have : (c = ';' || c = '#') = false := by
      simp [hc.1, hc.2]
    rw [this]
    simp [ih (fun x hx => h x (by simp [hx]))]

theorem lower_ne_nil (k : List Char) (h : k ≠ []) : lower k ≠ [] := by
  cases k with
  | nil => exact absurd rfl h
  | cons c cs => simp [lower]

/-- A rendered `Key = value` line parses back to the lowercased key and the
verbatim value. -/
theorem parseLine_kvLine (k v : List Char) (hk : cleanKey k = true) (hv : okVal v = true) :
    parseLine (kvLine k v) = some (IniLine.kv (lower k) v) := by
  obtain ⟨hkne, hkall⟩ := cleanKey_spec k hk
  simp only [okVal, Bool.and_eq_true, List.all_eq_true] at hv
  obtain ⟨⟨⟨hvne, hvhead⟩, hvlast⟩, hvall⟩ := hv
  have hvne' : v ≠ [] := by
    cases v with
    | nil => simp at hvne
    | cons a b => simp
  have hvh : isWS (v.headD ' ') = false := by simpa using hvhead
  have hvl : isWS (v.getLastD ' ') = false := by simpa using hvlast
  cases hkc : k with
  | nil => exact absurd hkc hkne
  | cons kc kt =>
    rw [← hkc]
    have hl : kvLine k v = k ++ ([' ', '=', ' '] ++ v) := by
      rw [kvLine]
      simp
    have hkcprops := hkall kc (by rw [hkc]; simp)
    have htrim : trim (kvLine k v) = kvLine k v := by
      apply trim_eq
      · rw [hl, hkc]
        simp only [List.cons_append, List.headD_cons]
        exact hkcprops.1
      · rw [hl, getLastD_append _ _ _ (by simp [hvne'])]
        rw [getLastD_append _ _ _ hvne']
        rw [getLastD_irrel v hvne' 'x' ' ']
        exact hvl
    have hshape : kvLine k v = kc :: (kt ++ (' ' :: '=' :: ' ' :: v)) := by
      rw [hl, hkc]
      rfl
    have hsplitrest : splitFirstEq ('=' :: (' ' :: v)) = some ([], ' ' :: v) := by
      rw [splitFirstEq]
      simp
    have hnoeq : ∀ c ∈ k ++ [' '], ¬(c = '=') := by
      intro c hc
      rcases List.mem_append.mp hc with hc | hc
      · exact (hkall c hc).2.1
      · simp only [List.mem_singleton] at hc
        rw [hc]
        intro he
        cases he
    have hsplitall : splitFirstEq (kc :: (kt ++ (' ' :: '=' :: ' ' :: v))) =
        some (k ++ [' '], ' ' :: v) := by
      rw [← hshape]
      have hteq : kvLine k v = (k ++ [' ']) ++ ('=' :: (' ' :: v)) := by
        rw [hl]
        simp
      rw [hteq, splitFirstEq_append _ _ hnoeq, hsplitrest]
      simp
    have htrimk : trim (k ++ [' ']) = k := by
      rw [trim]
      rw [trimL_eq]
      · rw [trimR_append_ws _ _ (by simp [isWS])]
        apply trimR_eq
        cases k with
        | nil => exact absurd rfl hkne
        | cons a b => exact (hkall _ (getLastD_mem _ 'x' (by simp))).1
      · rw [hkc]
        simp only [List.cons_append, List.headD_cons]
        exact hkcprops.1
    have hcut : cutComment (' ' :: v) = ' ' :: v := by
      apply cutComment_eq_self
      intro c hc
      simp only [List.mem_cons] at hc
      rcases hc with hc | hc
      · rw [hc]
        refine ⟨?_, ?_⟩ <;> decide
      · have h9 := hvall c hc
        constructor
        · intro he
          rw [he] at h9
          simp at h9
        · intro he
          rw [he] at h9
          simp at h9
    have htrimv : trim (' ' :: v) = v := by
      rw [trim_cons_ws _ _ (by simp [isWS])]
      refine trim_eq v ?_ ?_
      · rw [headD_irrel v hvne' 'x' ' ']
        exact hvh
      · rw [getLastD_irrel v hvne' 'x' ' ']
        exact hvl
    have hsemi : ¬(kc = ';') := hkcprops.2.2.2.1
    have hhash : ¬(kc = '#') := hkcprops.2.2.2.2
    have hbrk : ¬(kc = '[') := hkcprops.2.2.1
    rw [parseLine, htrim, hshape]
    simp [hsemi, hhash, hbrk, hsplitall, htrimk, hcut, htrimv, lower_ne_nil k hkne]

theorem parseLine_blank : parseLine [] = some IniLine.blank := rfl

theorem parseLine_iface_header :
    parseLine (("[Interface]").toList) = some (IniLine.header (("interface").toList)) := by
  decide

theorem parseLine_peer_header :
    parseLine (("[Peer]").toList) = some (IniLine.header (("peer").toList)) := by
  decide

theorem iniAux_nil (cur : List Char) (kvs : List (List Char × List Char))
    (acc : List IniSec) : iniAux [] cur kvs acc = some (acc ++ [(cur, kvs)]) := rfl

/-- Feeding a batch of rendered key/value lines into the accumulator adds the
lowercased pairs to the open section. -/
theorem iniAux_kv_batch :
    ∀ (pairs : List (List Char × List Char)) (rest : List (List Char))
      (cur : List Char) (kvs : List (List Char × List Char)) (acc : List IniSec),
      (∀ pr ∈ pairs, cleanKey pr.1 = true ∧ okVal pr.2 = true) →
      iniAux (pairs.map (fun pr => kvLine pr.1 pr.2) ++ rest) cur kvs acc =
        iniAux rest cur (kvs ++ pairs.map (fun pr => (lower pr.1, pr.2))) acc
  | [], rest, cur, kvs, acc, _ => by simp
  | pr :: prs, rest, cur, kvs, acc, h => by
    have hpr := h pr (by simp)
    have hline := parseLine_kvLine pr.1 pr.2 hpr.1 hpr.2
    simp only [List.map_cons, List.cons_append]
    rw [iniAux_kv_step _ _ _ _ _ _ _ hline]
    rw [iniAux_kv_batch prs rest cur (kvs ++ [(lower pr.1, pr.2)]) acc
      (fun x hx => h x (by simp [hx]))]
    simp

/-- Feeding the rendered peer blocks into the accumulator closes the open
section and appends one `peer` section per block. -/
theorem iniAux_peer_blocks :
    ∀ (pkvss : List (List (List Char × List Char))) (cur : List Char)
      (kvs : List (List Char × List Char)) (acc : List IniSec),
      (∀ kvsl ∈ pkvss, ∀ pr ∈ kvsl, cleanKey pr.1 = true ∧ okVal pr.2 = true) →
      iniAux ((pkvss.map (fun kvsl =>
          [] :: ("[Peer]").toList :: kvsl.map (fun pr => kvLine pr.1 pr.2))).flatten)
          cur kvs acc =
        some (acc ++ [(cur, kvs)] ++ pkvss.map (fun kvsl =>
          ((("peer").toList : List Char), kvsl.map (fun pr => (lower pr.1, pr.2)))))
  | [], cur, kvs, acc, _ => by simp [iniAux]
  | kvsl :: rest, cur, kvs, acc, h => by
    simp only [List.map_cons, List.flatten_cons, List.cons_append, List.append_assoc]
    rw [iniAux_blank_step _ _ _ _ _ parseLine_blank]
    rw [iniAux_header_step _ _ _ _ _ _ parseLine_peer_header]
    rw [iniAux_kv_batch kvsl _ _ [] _ (h kvsl (by simp))]
    rw [iniAux_peer_blocks rest _ _ _ (fun x hx => h x (by simp [hx]))]
    simp

/-! ## Cleanliness of the rendered values -/

theorem cleanChar_b64_fin : ∀ n : Fin 64, cleanChar (b64CharOf n.val) = true := by decide

theorem cleanChar_pad : cleanChar '=' = true := by decide

theorem b64Encode_chars : ∀ bs : List Nat, (∀ b ∈ bs, b < 256) →
    ∀ c ∈ b64Encode bs, cleanChar c = true
  | [], _, c, hc => by simp [b64Encode] at hc
  | [a], h, c, hc => by
    have ha : a < 256 := h a (by simp)
    simp only [b64Encode, List.mem_cons, List.mem_singleton, List.not_mem_nil,
      or_false] at hc
    rcases hc with hc | hc | hc | hc <;> rw [hc]
    · exact cleanChar_b64_fin ⟨a / 4, by omega⟩
    · exact cleanChar_b64_fin ⟨a % 4 * 16, by omega⟩
    · exact cleanChar_pad
    · exact cleanChar_pad
  | [a, b], h, c, hc => by
    have ha : a < 256 := h a (by simp)
    have hb : b < 256 := h b (by simp)
    simp only [b64Encode, List.mem_cons, List.mem_singleton, List.not_mem_nil,
      or_false] at hc
    rcases hc with hc | hc | hc | hc <;> rw [hc]
    · exact cleanChar_b64_fin ⟨a / 4, by omega⟩
    · exact cleanChar_b64_fin ⟨a % 4 * 16 + b / 16, by omega⟩
    · exact cleanChar_b64_fin ⟨b % 16 * 4, by omega⟩
    · exact cleanChar_pad
  | a :: b :: d :: rest, h, c, hc => by
    have ha : a < 256 := h a (by simp)
    have hb : b < 256 := h b (by simp)
    have hd : d < 256 := h d (by simp)
    simp only [b64Encode, List.mem_cons] at hc
    rcases hc with hc | hc | hc | hc | hc
    · rw [hc]; exact cleanChar_b64_fin ⟨a / 4, by omega⟩
    · rw [hc]; exact cleanChar_b64_fin ⟨a % 4 * 16 + b / 16, by omega⟩
    · rw [hc]; exact cleanChar_b64_fin ⟨b % 16 * 4 + d / 64, by omega⟩
    · rw [hc]; exact cleanChar_b64_fin ⟨d % 64, by omega⟩
    · exact b64Encode_chars rest (fun x hx => h x (by simp [hx])) c hc

theorem b64Encode_cleanVal (bs : List Nat) (h : ∀ b ∈ bs, b < 256) (hne : bs ≠ []) :
    cleanVal (b64Encode bs) = true := by
  have hchars := b64Encode_chars bs h
  have hnenc : b64Encode bs ≠ [] := by
    cases bs with
    | nil => exact absurd rfl hne
    | cons a t =>
      cases t with
      | nil => simp [b64Encode]
      | cons b u =>
        cases u with
        | nil => simp [b64Encode]
        | cons d w => simp [b64Encode]
  simp only [cleanVal, Bool.and_eq_true, List.all_eq_true]
  exact ⟨by simpa using hnenc, hchars⟩

theorem cleanChar_digit_fin : ∀ d : Fin 10, cleanChar (digitCh d.val) = true := by decide

theorem natRenderAux_chars (n : Nat) :
    ∀ acc, (∀ c ∈ acc, cleanChar c = true) →
      ∀ c ∈ natRenderAux n acc, cleanChar c = true := by
  induction n using Nat.strong_induction_on with
  | _ n ih =>
    intro acc hacc c hc
    by_cases h : n < 10
    · rw [natRenderAux, if_pos h] at hc
      rcases List.mem_cons.mp hc with hc | hc
      · rw [hc]; exact cleanChar_digit_fin ⟨n, h⟩
      · exact hacc c hc
    · rw [natRenderAux, if_neg h] at hc
      refine ih (n / 10) (Nat.div_lt_self (by omega) (by omega))
        (digitCh (n % 10) :: acc) ?_ c hc
      intro x hx
      rcases List.mem_cons.mp hx with hx | hx
      · rw [hx]; exact cleanChar_digit_fin ⟨n % 10, Nat.mod_lt _ (by omega)⟩
      · exact hacc x hx

theorem natRender_ne_nil (n : Nat) : natRender n ≠ [] := by
  obtain ⟨d, t, _, ht⟩ := natRender_head n
  simp [ht]

theorem intRender_cleanVal (i : Int) : cleanVal (intRender i) = true := by
  simp only [cleanVal, Bool.and_eq_true, List.all_eq_true]
  constructor
  · rw [intRender]
    by_cases h : i < 0 <;> simp [h, natRender_ne_nil]
  · intro c hc
    rw [intRender] at hc
    by_cases h : i < 0
    · rw [if_pos h] at hc
      rcases List.mem_cons.mp hc with hc | hc
      · rw [hc]; decide
      · exact natRenderAux_chars _ [] (by simp) c hc
    · rw [if_neg h] at hc
      exact natRenderAux_chars _ [] (by simp) c hc

theorem cleanVal_of_cleanTok (s : List Char) (h : cleanTok s = true) : cleanVal s = true := by
  obtain ⟨hne, hall⟩ := cleanTok_spec s h
  simp only [cleanVal, Bool.and_eq_true, List.all_eq_true]
  exact ⟨by simpa using hne, fun c hc => (hall c hc).1⟩

/-- A comma-join of clean tokens is an acceptable INI value. -/
theorem joinSep_okVal : ∀ toks : List (List Char), toks ≠ [] →
    (∀ t ∈ toks, cleanTok t = true) →
    okVal (joinSep ((", ").toList) toks) = true
  | [], h, _ => absurd rfl h
  | [x], _, hc => by
    simp only [joinSep]
    exact okVal_of_cleanVal x (cleanVal_of_cleanTok x (hc x (by simp)))
  | x :: y :: tl, _, hc => by
    have hx := hc x (by simp)
    obtain ⟨hxne, hxall⟩ := cleanTok_spec x hx
    have ihok := joinSep_okVal (y :: tl) (by simp) (fun t ht => hc t (by simp [ht]))
    simp only [okVal, Bool.and_eq_true, List.all_eq_true] at ihok ⊢
    obtain ⟨⟨⟨ihne, ihhead⟩, ihlast⟩, ihall⟩ := ihok
    have hJne : joinSep ((", ").toList) (y :: tl) ≠ [] := by
      cases hj : joinSep ((", ").toList) (y :: tl) with
      | nil => rw [hj] at ihne; simp at ihne
      | cons a b => simp
    have hstep : joinSep ((", ").toList) (x :: y :: tl) =
        x ++ (',' :: ' ' :: joinSep ((", ").toList) (y :: tl)) := by
      simp [joinSep]
    refine ⟨⟨⟨?_, ?_⟩, ?_⟩, ?_⟩
    · rw [hstep]
      cases x with
      | nil => exact absurd rfl hxne
      | cons a b => simp
    · rw [hstep]
      cases x with
      | nil => exact absurd rfl hxne
      | cons a b =>
        simp only [List.cons_append, List.headD_cons]
        simp [(cleanChar_spec a (hxall a (by simp)).1).1]
    · rw [hstep]
      rw [getLastD_append x _ ' ' (by simp)]
      rw [List.getLastD_cons, List.getLastD_cons]
      exact ihlast
    · intro c hc2
      rw [hstep] at hc2
      rcases List.mem_append.mp hc2 with hc2 | hc2
      · have hcs := cleanChar_spec c (hxall c hc2).1
        simp [hcs.2.1, hcs.2.2.1, hcs.2.2.2]
      · rcases List.mem_cons.mp hc2 with hc2 | hc2
        · rw [hc2]; decide
        · rcases List.mem_cons.mp hc2 with hc2 | hc2
          · rw [hc2]; decide
          · exact ihall c hc2

/-! ## Key round-trips (base64 of 32-byte keys kept as lowercase hex) -/

/-- Keys as `EncodeBase64ToHex` produces them: 64 lowercase hex digits. -/
def isHex64 (s : List Char) : Bool := (s.length == 64) && s.all isLowerHexDigit

theorem hexDecode_exists : ∀ cs : List Char, (∀ c ∈ cs, isLowerHexDigit c = true) →
    cs.length % 2 = 0 → ∃ bs, hexDecode cs = some bs
  | [], _, _ => ⟨[], rfl⟩
  | [c], _, hl => by simp at hl
  | c1 :: c2 :: cs, h, hl => by
    obtain ⟨v1, _, hv1, _⟩ := hexDigitCh_hexVal c1 (h c1 (by simp))
    obtain ⟨v2, _, hv2, _⟩ := hexDigitCh_hexVal c2 (h c2 (by simp))
    obtain ⟨bs, hbs⟩ := hexDecode_exists cs (fun x hx => h x (by simp [hx]))
      (by simp only [List.length_cons] at hl; omega)
    exact ⟨(v1 * 16 + v2) :: bs, by
      rw [hexDecode, hv1, hv2, hbs]
      rfl⟩

theorem isHex64_spec (s : List Char) (h : isHex64 s = true) :
    s.length = 64 ∧ ∀ c ∈ s, isLowerHexDigit c = true := by
  simp only [isHex64, Bool.and_eq_true, List.all_eq_true, beq_iff_eq] at h
  exact h

/-- A 64-digit lowercase hex key survives base64 re-encoding and re-decoding,
and its base64 form is a clean INI value. -/
theorem key_roundtrip (s : List Char) (h : isHex64 s = true) :
    ∃ b, encodeHexToBase64 s = some b ∧ encodeBase64ToHex b = some s ∧
      cleanVal b = true ∧ s ≠ [] := by
  obtain ⟨hlen, hlow⟩ := isHex64_spec s h
  obtain ⟨bs, hbs⟩ := hexDecode_exists s hlow (by omega)
  have hblen : bs.length = 32 := by
    have := hexDecode_length s bs hbs
    omega
  have hbnd := hexDecode_bytes_lt s bs hbs
  have hbne : bs ≠ [] := by
    intro he
    rw [he] at hblen
    simp at hblen
  refine ⟨b64Encode bs, ?_, ?_, ?_, ?_⟩
  · rw [encodeHexToBase64, hbs]
    rfl
  · have h1 : encodeBase64ToHex (b64Encode bs) = some (hexEncode bs) := by
      simp only [encodeBase64ToHex, b64Decode_b64Encode bs hbnd]
      rw [if_neg (by omega)]
    rw [h1, hexEncode_hexDecode s hlow bs hbs]
  · exact b64Encode_cleanVal bs hbnd hbne
  · intro he
    rw [he] at hlen
    simp at hlen

theorem isHex64_zeros64 : isHex64 zeros64 = true := by decide

theorem isHex64_hexEncode (bs : List Nat) (hlen : bs.length = 32)
    (hbnd : ∀ b ∈ bs, b < 256) : isHex64 (hexEncode bs) = true := by
  have hchars : ∀ cs ∈ hexEncode bs, isLowerHexDigit cs = true := by
    clear hlen
    induction bs with
    | nil => simp [hexEncode]
    | cons b t ih =>
      intro c hc
      have hb : b < 256 := hbnd b (by simp)
      simp only [hexEncode, List.mem_cons] at hc
      rcases hc with hc | hc | hc
      · rw [hc]; exact isLowerHexDigit_hexDigitCh_fin ⟨b / 16, by omega⟩
      · rw [hc]; exact isLowerHexDigit_hexDigitCh_fin ⟨b % 16, by omega⟩
      · exact ih (fun x hx => hbnd x (by simp [hx])) c hc
  have hlen2 : (hexEncode bs).length = 2 * bs.length := by
    clear hlen hbnd hchars
    induction bs with
    | nil => rfl
    | cons b t ih => simp [hexEncode, ih]; omega
  simp only [isHex64, Bool.and_eq_true, List.all_eq_true, beq_iff_eq]
  exact ⟨by omega, hchars⟩

/-! ## Round-trip of the configuration -/

/-- Key lowering applied by the Insensitive INI reader to a rendered section. -/
def lowerKeys (kvs : List (List Char × List Char)) : List (List Char × List Char) :=
  kvs.map (fun pr => (lower pr.1, pr.2))

theorem valuesOfKey_cons_eq (k v : List Char) (kvs : List (List Char × List Char)) :
    valuesOfKey k ((k, v) :: kvs) = v :: valuesOfKey k kvs := by
  simp [valuesOfKey, List.filter_cons]

theorem valuesOfKey_cons_ne (k k' v : List Char) (kvs : List (List Char × List Char))
    (h : ¬(k' = k)) : valuesOfKey k ((k', v) :: kvs) = valuesOfKey k kvs := by
  simp [valuesOfKey, List.filter_cons, h]

theorem valuesOfKey_append (k : List Char) (xs ys : List (List Char × List Char)) :
    valuesOfKey k (xs ++ ys) = valuesOfKey k xs ++ valuesOfKey k ys := by
  simp [valuesOfKey, List.filter_append]

theorem valuesOfKey_nil (k : List Char) : valuesOfKey k [] = [] := rfl

theorem keyPresent_cons (k : List Char) (pr : List Char × List Char)
    (kvs : List (List Char × List Char)) :
    keyPresent k (pr :: kvs) = ((pr.1 == k) || keyPresent k kvs) := by
  simp [keyPresent]

theorem keyPresent_append (k : List Char) (xs ys : List (List Char × List Char)) :
    keyPresent k (xs ++ ys) = (keyPresent k xs || keyPresent k ys) := by
  simp [keyPresent, List.any_append]

theorem keyPresent_nil (k : List Char) : keyPresent k [] = false := rfl

theorem joinSep_ne_nil (sep : List Char) :
    ∀ toks : List (List Char), toks ≠ [] → (∀ t ∈ toks, t ≠ []) →
      joinSep sep toks ≠ []
  | [], h, _ => absurd rfl h
  | [x], _, ht => by simpa [joinSep] using ht x (by simp)
  | x :: y :: tl, _, ht => by
    have hx : x ≠ [] := ht x (by simp)
    cases x with
    | nil => exact absurd rfl hx
    | cons a b => simp [joinSep]

theorem cleanTok_ne_nil (s : List Char) (h : cleanTok s = true) : s ≠ [] :=
  (cleanTok_spec s h).1

/-- Parsing the printed elements back, elementwise. -/
theorem mapM_print {γ : Type} (f : List Char → Option γ) (g : γ → List Char) :
    ∀ l : List γ, (∀ x ∈ l, f (g x) = some x) → (l.map g).mapM f = some l
  | [], _ => rfl
  | x :: t, h => by
    rw [List.map_cons, List.mapM_cons, h x (by simp),
      mapM_print f g t (fun y hy => h y (by simp [hy]))]
    rfl

/-- Well-formedness of a peer, as produced by an accepted parse: both keys are
64 lowercase hex digits, the endpoint is absent or a clean value, and every
allowed prefix prints to a clean token that parses back to itself. -/
def WFPeer (printPfx : π → List Char) (parsePfx : List Char → Option π)
    (p : PeerConfig π) : Prop :=
  isHex64 p.publicKey = true ∧ isHex64 p.preSharedKey = true ∧
  (p.endpoint = [] ∨ cleanVal p.endpoint = true) ∧
  (∀ q ∈ p.allowedIPs, parsePfx (printPfx q) = some q ∧ cleanTok (printPfx q) = true)

/-- Well-formedness of the interface section of an accepted configuration. -/
def WFInterface (printPfx : π → List Char) (parsePfx : List Char → Option π)
    (printAddr : α → List Char) (parseAddr : List Char → Option α)
    (i : InterfaceConfig π α) : Prop :=
  isHex64 i.privateKey = true ∧
  (∀ q ∈ i.addresses, parsePfx (printPfx q) = some q ∧ cleanTok (printPfx q) = true) ∧
  (∀ a ∈ i.dns, parseAddr (printAddr a) = some a ∧ cleanTok (printAddr a) = true)

/-- Well-formedness of an accepted configuration: one well-formed interface,
at least one peer, all peers well-formed. -/
def WFConfig (printPfx : π → List Char) (parsePfx : List Char → Option π)
    (printAddr : α → List Char) (parseAddr : List Char → Option α)
    (c : Configuration π α) : Prop :=
  WFInterface printPfx parsePfx printAddr parseAddr c.iface ∧
  c.peers ≠ [] ∧
  (∀ p ∈ c.peers, WFPeer printPfx parsePfx p)

theorem lower_lit_privatekey : lower (("PrivateKey").toList) = ("privatekey").toList := by decide

theorem lower_lit_address : lower (("Address").toList) = ("address").toList := by decide

theorem lower_lit_dns : lower (("DNS").toList) = ("dns").toList := by decide

theorem lower_lit_mtu : lower (("MTU").toList) = ("mtu").toList := by decide

theorem lower_lit_publickey : lower (("PublicKey").toList) = ("publickey").toList := by decide

theorem lower_lit_presharedkey :
    lower (("PresharedKey").toList) = ("presharedkey").toList := by decide

theorem lower_lit_allowedips : lower (("AllowedIPs").toList) = ("allowedips").toList := by decide

theorem lower_lit_endpoint : lower (("Endpoint").toList) = ("endpoint").toList := by decide

theorem lower_lit_keepalive :
    lower (("PersistentKeepalive").toList) = ("persistentkeepalive").toList := by decide

theorem cleanKey_lits :
    cleanKey (("PrivateKey").toList) = true ∧ cleanKey (("Address").toList) = true ∧
    cleanKey (("DNS").toList) = true ∧ cleanKey (("MTU").toList) = true ∧
    cleanKey (("PublicKey").toList) = true ∧ cleanKey (("PresharedKey").toList) = true ∧
    cleanKey (("AllowedIPs").toList) = true ∧ cleanKey (("Endpoint").toList) = true ∧
    cleanKey (("PersistentKeepalive").toList) = true := by decide

/-- The round-trip for the `[Interface]` section: its rendered key/value pairs
exist, are clean, and parse back to the same interface with `FwMark` reset to
zero (the renderer never emits `FwMark`). -/
theorem interface_roundtrip (printPfx : π → List Char) (parsePfx : List Char → Option π)
    (printAddr : α → List Char) (parseAddr : List Char → Option α) (widen : α → π)
    (i : InterfaceConfig π α)
    (hwf : WFInterface printPfx parsePfx printAddr parseAddr i) :
    ∃ ikvs, renderInterfaceKvs printPfx printAddr i = some ikvs ∧
      (∀ pr ∈ ikvs, cleanKey pr.1 = true ∧ okVal pr.2 = true) ∧
      parseIfaceKvs parsePfx parseAddr widen (lowerKeys ikvs) =
        some ⟨i.privateKey, i.addresses, i.dns, i.mtu, 0⟩ := by
  obtain ⟨hpk, haddr, hdns⟩ := hwf
  obtain ⟨pkB64, hb1, hb2, hbclean, hpkne⟩ := key_roundtrip _ hpk
  have htoksA : ∀ t ∈ i.addresses.map printPfx, cleanTok t = true := by
    intro t ht
    obtain ⟨q, hq, rfl⟩ := List.mem_map.mp ht
    exact (haddr q hq).2
  have htoksD : ∀ t ∈ i.dns.map printAddr, cleanTok t = true := by
    intro t ht
    obtain ⟨a, ha, rfl⟩ := List.mem_map.mp ht
    exact (hdns a ha).2
  refine ⟨(("PrivateKey").toList, pkB64) ::
      ((if i.addresses.isEmpty then [] else
        [(("Address").toList, joinSep ((", ").toList) (i.addresses.map printPfx))]) ++
       (if i.dns.isEmpty then [] else
        [(("DNS").toList, joinSep ((", ").toList) (i.dns.map printAddr))]) ++
       (if i.mtu = 0 then [] else [(("MTU").toList, intRender i.mtu)])), ?_, ?_, ?_⟩
  · rw [renderInterfaceKvs, if_neg hpkne, hb1]
    rfl
  · intro pr hpr
    rcases List.mem_cons.mp hpr with hpr | hpr
    · rw [hpr]
      exact ⟨cleanKey_lits.1, okVal_of_cleanVal _ hbclean⟩
    · rcases List.mem_append.mp hpr with hpr | hpr
      · rcases List.mem_append.mp hpr with hpr | hpr
        · by_cases ha : i.addresses.isEmpty
          · rw [if_pos ha] at hpr; simp at hpr
          · rw [if_neg ha] at hpr
            simp only [List.mem_singleton] at hpr
            rw [hpr]
            refine ⟨cleanKey_lits.2.1, joinSep_okVal _ ?_ htoksA⟩
            intro he
            rw [List.map_eq_nil_iff] at he
            rw [he] at ha
            simp at ha
        · by_cases hd : i.dns.isEmpty
          · rw [if_pos hd] at hpr; simp at hpr
          · rw [if_neg hd] at hpr
            simp only [List.mem_singleton] at hpr
            rw [hpr]
            refine ⟨cleanKey_lits.2.2.1, joinSep_okVal _ ?_ htoksD⟩
            intro he
            rw [List.map_eq_nil_iff] at he
            rw [he] at hd
            simp at hd
      · by_cases hm : i.mtu = 0
        · rw [if_pos hm] at hpr; simp at hpr
        · rw [if_neg hm] at hpr
          simp only [List.mem_singleton] at hpr
          rw [hpr]
          exact ⟨cleanKey_lits.2.2.2.1, okVal_of_cleanVal _ (intRender_cleanVal i.mtu)⟩
  · have hlow : lowerKeys ((("PrivateKey").toList, pkB64) ::
        ((if i.addresses.isEmpty then [] else
          [(("Address").toList, joinSep ((", ").toList) (i.addresses.map printPfx))]) ++
         (if i.dns.isEmpty then [] else
          [(("DNS").toList, joinSep ((", ").toList) (i.dns.map printAddr))]) ++
         (if i.mtu = 0 then [] else [(("MTU").toList, intRender i.mtu)]))) =
        ((("privatekey").toList, pkB64) ::
        ((if i.addresses.isEmpty then [] else
          [(("address").toList, joinSep ((", ").toList) (i.addresses.map printPfx))]) ++
         (if i.dns.isEmpty then [] else
          [(("dns").toList, joinSep ((", ").toList) (i.dns.map printAddr))]) ++
         (if i.mtu = 0 then [] else [(("mtu").toList, intRender i.mtu)]))) := by
      simp only [lowerKeys, List.map_cons, List.map_append, apply_ite (List.map _),
        List.map_nil, List.map_singleton, lower_lit_privatekey, lower_lit_address,
        lower_lit_dns, lower_lit_mtu]
    rw [hlow]
    have hvA : valuesOfKey (("address").toList) ((("privatekey").toList, pkB64) ::
        ((if i.addresses.isEmpty then [] else
          [(("address").toList, joinSep ((", ").toList) (i.addresses.map printPfx))]) ++
         (if i.dns.isEmpty then [] else
          [(("dns").toList, joinSep ((", ").toList) (i.dns.map printAddr))]) ++
         (if i.mtu = 0 then [] else [(("mtu").toList, intRender i.mtu)]))) =
        (if i.addresses.isEmpty then [] else
          [joinSep ((", ").toList) (i.addresses.map printPfx)]) := by
      rw [valuesOfKey_cons_ne _ _ _ _ (by decide)]
      rw [valuesOfKey_append, valuesOfKey_append]
      by_cases ha : i.addresses.isEmpty <;> by_cases hd : i.dns.isEmpty <;>
        by_cases hm : i.mtu = 0 <;>
        simp [ha, hd, hm, valuesOfKey, List.filter_cons]
    have hvD : valuesOfKey (("dns").toList) ((("privatekey").toList, pkB64) ::
        ((if i.addresses.isEmpty then [] else
          [(("address").toList, joinSep ((", ").toList) (i.addresses.map printPfx))]) ++
         (if i.dns.isEmpty then [] else
          [(("dns").toList, joinSep ((", ").toList) (i.dns.map printAddr))]) ++
         (if i.mtu = 0 then [] else [(("mtu").toList, intRender i.mtu)]))) =
        (if i.dns.isEmpty then [] else
          [joinSep ((", ").toList) (i.dns.map printAddr)]) := by
      rw [valuesOfKey_cons_ne _ _ _ _ (by decide)]
      rw [valuesOfKey_append, valuesOfKey_append]
      by_cases ha : i.addresses.isEmpty <;> by_cases hd : i.dns.isEmpty <;>
        by_cases hm : i.mtu = 0 <;>
        simp [ha, hd, hm, valuesOfKey, List.filter_cons]
    have hvM : valuesOfKey (("mtu").toList) ((("privatekey").toList, pkB64) ::
        ((if i.addresses.isEmpty then [] else
          [(("address").toList, joinSep ((", ").toList) (i.addresses.map printPfx))]) ++
         (if i.dns.isEmpty then [] else
          [(("dns").toList, joinSep ((", ").toList) (i.dns.map printAddr))]) ++
         (if i.mtu = 0 then [] else [(("mtu").toList, intRender i.mtu)]))) =
        (if i.mtu = 0 then [] else [intRender i.mtu]) := by
      rw [valuesOfKey_cons_ne _ _ _ _ (by decide)]
      rw [valuesOfKey_append, valuesOfKey_append]
      by_cases ha : i.addresses.isEmpty <;> by_cases hd : i.dns.isEmpty <;>
        by_cases hm : i.mtu = 0 <;>
        simp [ha, hd, hm, valuesOfKey, List.filter_cons]
    have hkD : keyPresent (("dns").toList) ((("privatekey").toList, pkB64) ::
        ((if i.addresses.isEmpty then [] else
          [(("address").toList, joinSep ((", ").toList) (i.addresses.map printPfx))]) ++
         (if i.dns.isEmpty then [] else
          [(("dns").toList, joinSep ((", ").toList) (i.dns.map printAddr))]) ++
         (if i.mtu = 0 then [] else [(("mtu").toList, intRender i.mtu)]))) = !i.dns.isEmpty := by
      by_cases ha : i.addresses.isEmpty <;> by_cases hd : i.dns.isEmpty <;>
        by_cases hm : i.mtu = 0 <;>
        simp [ha, hd, hm, keyPresent]
    have hkM : keyPresent (("mtu").toList) ((("privatekey").toList, pkB64) ::
        ((if i.addresses.isEmpty then [] else
          [(("address").toList, joinSep ((", ").toList) (i.addresses.map printPfx))]) ++
         (if i.dns.isEmpty then [] else
          [(("dns").toList, joinSep ((", ").toList) (i.dns.map printAddr))]) ++
         (if i.mtu = 0 then [] else [(("mtu").toList, intRender i.mtu)]))) = !(i.mtu == 0) := by
      by_cases ha : i.addresses.isEmpty <;> by_cases hd : i.dns.isEmpty <;>
        by_cases hm : i.mtu = 0 <;>
        simp [ha, hd, hm, keyPresent]
    have hkF : keyPresent (("fwmark").toList) ((("privatekey").toList, pkB64) ::
        ((if i.addresses.isEmpty then [] else
          [(("address").toList, joinSep ((", ").toList) (i.addresses.map printPfx))]) ++
         (if i.dns.isEmpty then [] else
          [(("dns").toList, joinSep ((", ").toList) (i.dns.map printAddr))]) ++
         (if i.mtu = 0 then [] else [(("mtu").toList, intRender i.mtu)]))) = false := by
      by_cases ha : i.addresses.isEmpty <;> by_cases hd : i.dns.isEmpty <;>
        by_cases hm : i.mtu = 0 <;>
        simp [ha, hd, hm, keyPresent]
    have hksP : keyString (("privatekey").toList) ((("privatekey").toList, pkB64) ::
        ((if i.addresses.isEmpty then [] else
          [(("address").toList, joinSep ((", ").toList) (i.addresses.map printPfx))]) ++
         (if i.dns.isEmpty then [] else
          [(("dns").toList, joinSep ((", ").toList) (i.dns.map printAddr))]) ++
         (if i.mtu = 0 then [] else [(("mtu").toList, intRender i.mtu)]))) = pkB64 := by
      rw [keyString, valuesOfKey_cons_eq]
      rfl
    have hswA : stringsWithShadows (("address").toList) ((("privatekey").toList, pkB64) ::
        ((if i.addresses.isEmpty then [] else
          [(("address").toList, joinSep ((", ").toList) (i.addresses.map printPfx))]) ++
         (if i.dns.isEmpty then [] else
          [(("dns").toList, joinSep ((", ").toList) (i.dns.map printAddr))]) ++
         (if i.mtu = 0 then [] else [(("mtu").toList, intRender i.mtu)]))) =
        i.addresses.map printPfx := by
      rw [stringsWithShadows, valueWithShadows, hvA]
      by_cases ha : i.addresses.isEmpty
      · rw [if_pos ha]
        rw [List.isEmpty_iff.mp ha]
        rfl
      · rw [if_neg ha]
        have hane : i.addresses ≠ [] := by
          intro he; rw [he] at ha; simp at ha
        have hmne : i.addresses.map printPfx ≠ [] := by simp [hane]
        have hJne : joinSep ((", ").toList) (i.addresses.map printPfx) ≠ [] :=
          joinSep_ne_nil _ _ hmne (fun t ht => cleanTok_ne_nil t (htoksA t ht))
        have hie : (joinSep ((", ").toList) (i.addresses.map printPfx)).isEmpty = false := by
          cases hj : joinSep ((", ").toList) (i.addresses.map printPfx) with
          | nil => exact absurd hj hJne
          | cons a b => rfl
        have hfil : ([joinSep ((", ").toList) (i.addresses.map printPfx)].filter
            (fun v => !v.isEmpty)) = [joinSep ((", ").toList) (i.addresses.map printPfx)] := by
          simp only [List.filter_cons]
          rw [hie]
          rfl
        rw [hfil]
        simp only [List.map_cons, List.map_nil, List.flatten_cons, List.flatten_nil,
          List.append_nil]
        exact splitJoin_toks _ hmne htoksA
    have hswD : stringsWithShadows (("dns").toList) ((("privatekey").toList, pkB64) ::
        ((if i.addresses.isEmpty then [] else
          [(("address").toList, joinSep ((", ").toList) (i.addresses.map printPfx))]) ++
         (if i.dns.isEmpty then [] else
          [(("dns").toList, joinSep ((", ").toList) (i.dns.map printAddr))]) ++
         (if i.mtu = 0 then [] else [(("mtu").toList, intRender i.mtu)]))) =
        i.dns.map printAddr := by
      rw [stringsWithShadows, valueWithShadows, hvD]
      by_cases hd : i.dns.isEmpty
      · rw [if_pos hd]
        rw [List.isEmpty_iff.mp hd]
        rfl
      · rw [if_neg hd]
        have hane : i.dns ≠ [] := by
          intro he; rw [he] at hd; simp at hd
        have hmne : i.dns.map printAddr ≠ [] := by simp [hane]
        have hJne : joinSep ((", ").toList) (i.dns.map printAddr) ≠ [] :=
          joinSep_ne_nil _ _ hmne (fun t ht => cleanTok_ne_nil t (htoksD t ht))
        have hie : (joinSep ((", ").toList) (i.dns.map printAddr)).isEmpty = false := by
          cases hj : joinSep ((", ").toList) (i.dns.map printAddr) with
          | nil => exact absurd hj hJne
          | cons a b => rfl
        have hfil : ([joinSep ((", ").toList) (i.dns.map printAddr)].filter
            (fun v => !v.isEmpty)) = [joinSep ((", ").toList) (i.dns.map printAddr)] := by
          simp only [List.filter_cons]
          rw [hie]
          rfl
        rw [hfil]
        simp only [List.map_cons, List.map_nil, List.flatten_cons, List.flatten_nil,
          List.append_nil]
        exact splitJoin_toks _ hmne htoksD
    have hmapA : (i.addresses.map printPfx).mapM
        (parsePfxOrAddr parsePfx parseAddr widen) = some i.addresses := by
      apply mapM_print
      intro q hq
      rw [parsePfxOrAddr, trim_tok _ (haddr q hq).2, (haddr q hq).1]
    have hmapD : (i.dns.map printAddr).mapM parseAddr = some i.dns := by
      apply mapM_print
      intro a ha
      exact (hdns a ha).1
    have hdnsval : (if keyPresent (("dns").toList) ((("privatekey").toList, pkB64) ::
        ((if i.addresses.isEmpty then [] else
          [(("address").toList, joinSep ((", ").toList) (i.addresses.map printPfx))]) ++
         (if i.dns.isEmpty then [] else
          [(("dns").toList, joinSep ((", ").toList) (i.dns.map printAddr))]) ++
         (if i.mtu = 0 then [] else [(("mtu").toList, intRender i.mtu)]))) = true then
          (stringsWithShadows (("dns").toList) ((("privatekey").toList, pkB64) ::
        ((if i.addresses.isEmpty then [] else
          [(("address").toList, joinSep ((", ").toList) (i.addresses.map printPfx))]) ++
         (if i.dns.isEmpty then [] else
          [(("dns").toList, joinSep ((", ").toList) (i.dns.map printAddr))]) ++
         (if i.mtu = 0 then [] else [(("mtu").toList, intRender i.mtu)])))).mapM parseAddr
        else some []) = some i.dns := by
      rw [hkD, hswD]
      cases hb : i.dns.isEmpty with
      | true =>
        have hdn : i.dns = [] := List.isEmpty_iff.mp hb
        rw [if_neg (by decide), hdn]
      | false =>
        rw [if_pos (by decide)]
        exact hmapD
    have hmtuval : (if keyPresent (("mtu").toList) ((("privatekey").toList, pkB64) ::
        ((if i.addresses.isEmpty then [] else
          [(("address").toList, joinSep ((", ").toList) (i.addresses.map printPfx))]) ++
         (if i.dns.isEmpty then [] else
          [(("dns").toList, joinSep ((", ").toList) (i.dns.map printAddr))]) ++
         (if i.mtu = 0 then [] else [(("mtu").toList, intRender i.mtu)]))) = true then
          intParse (keyString (("mtu").toList) ((("privatekey").toList, pkB64) ::
        ((if i.addresses.isEmpty then [] else
          [(("address").toList, joinSep ((", ").toList) (i.addresses.map printPfx))]) ++
         (if i.dns.isEmpty then [] else
          [(("dns").toList, joinSep ((", ").toList) (i.dns.map printAddr))]) ++
         (if i.mtu = 0 then [] else [(("mtu").toList, intRender i.mtu)]))))
        else some 0) = some i.mtu := by
      rw [hkM]
      cases hb : (i.mtu == 0) with
      | true =>
        have hmz : i.mtu = 0 := by simpa using hb
        rw [if_neg (by decide), hmz]
      | false =>
        have hm0 : ¬(i.mtu = 0) := by simpa using hb
        have hksM : keyString (("mtu").toList) ((("privatekey").toList, pkB64) ::
        ((if i.addresses.isEmpty then [] else
          [(("address").toList, joinSep ((", ").toList) (i.addresses.map printPfx))]) ++
         (if i.dns.isEmpty then [] else
          [(("dns").toList, joinSep ((", ").toList) (i.dns.map printAddr))]) ++
         (if i.mtu = 0 then [] else [(("mtu").toList, intRender i.mtu)]))) = intRender i.mtu := by
          rw [keyString, hvM, if_neg hm0]
          rfl
        rw [if_pos (by decide), hksM]
        exact intParse_intRender i.mtu
    have hfwval : (if keyPresent (("fwmark").toList) ((("privatekey").toList, pkB64) ::
        ((if i.addresses.isEmpty then [] else
          [(("address").toList, joinSep ((", ").toList) (i.addresses.map printPfx))]) ++
         (if i.dns.isEmpty then [] else
          [(("dns").toList, joinSep ((", ").toList) (i.dns.map printAddr))]) ++
         (if i.mtu = 0 then [] else [(("mtu").toList, intRender i.mtu)]))) = true then
          (intParse (keyString (("fwmark").toList) ((("privatekey").toList, pkB64) ::
        ((if i.addresses.isEmpty then [] else
          [(("address").toList, joinSep ((", ").toList) (i.addresses.map printPfx))]) ++
         (if i.dns.isEmpty then [] else
          [(("dns").toList, joinSep ((", ").toList) (i.dns.map printAddr))]) ++
         (if i.mtu = 0 then [] else [(("mtu").toList, intRender i.mtu)]))))).map
            (fun j => (j % 4294967296).toNat)
        else some 0) = some 0 := by
      rw [hkF]
      simp
    rw [parseIfaceKvs]
    rw [hswA, hmapA, hksP, hb2, hdnsval, hmtuval, hfwval]
    rfl
/-- The round-trip for one `[Peer]` section: its rendered key/value pairs
exist, are clean, and parse back to the same peer (the all-zero pre-shared key
is omitted on emission and restored by the parser default). -/
theorem peer_roundtrip (printPfx : π → List Char) (parsePfx : List Char → Option π)
    (p : PeerConfig π) (hwf : WFPeer printPfx parsePfx p) :
    ∃ kvsl, renderPeerKvs printPfx p = some kvsl ∧
      (∀ pr ∈ kvsl, cleanKey pr.1 = true ∧ okVal pr.2 = true) ∧
      parsePeerSec parsePfx (lowerKeys kvsl) = some p := by
  obtain ⟨hpk, hpsk, hep, hips⟩ := hwf
  obtain ⟨pkB64, hbpk1, hbpk2, hbpkclean, hpkne⟩ := key_roundtrip _ hpk
  obtain ⟨pskB64, hbps1, hbps2, hbpsclean, hpskne⟩ := key_roundtrip _ hpsk
  have htoksI : ∀ t ∈ p.allowedIPs.map printPfx, cleanTok t = true := by
    intro t ht
    obtain ⟨q, hq, rfl⟩ := List.mem_map.mp ht
    exact (hips q hq).2
  refine ⟨(("PublicKey").toList, pkB64) ::
      ((if p.preSharedKey = zeros64 then [] else [(("PresharedKey").toList, pskB64)]) ++
       (if p.allowedIPs.isEmpty then [] else
        [(("AllowedIPs").toList, joinSep ((", ").toList) (p.allowedIPs.map printPfx))]) ++
       (if p.endpoint = [] then [] else [(("Endpoint").toList, p.endpoint)]) ++
       (if p.keepAlive = 0 then []
        else [(("PersistentKeepalive").toList, intRender p.keepAlive)])), ?_, ?_, ?_⟩
  · rw [renderPeerKvs, if_neg hpkne, hbpk1]
    by_cases hz : p.preSharedKey = zeros64
    · rw [if_neg (by simp [hz]), if_pos hz]
      rfl
    · rw [if_pos (And.intro hpskne hz), hbps1, if_neg hz]
      rfl
  · intro pr hpr
    rcases List.mem_cons.mp hpr with hpr | hpr
    · rw [hpr]
      exact ⟨cleanKey_lits.2.2.2.2.1, okVal_of_cleanVal _ hbpkclean⟩
    · rcases List.mem_append.mp hpr with hpr | hpr
      · rcases List.mem_append.mp hpr with hpr | hpr
        · rcases List.mem_append.mp hpr with hpr | hpr
          · by_cases hz : p.preSharedKey = zeros64
            · rw [if_pos hz] at hpr; simp at hpr
            · rw [if_neg hz] at hpr
              simp only [List.mem_singleton] at hpr
              rw [hpr]
              exact ⟨cleanKey_lits.2.2.2.2.2.1, okVal_of_cleanVal _ hbpsclean⟩
          · by_cases hi : p.allowedIPs.isEmpty
            · rw [if_pos hi] at hpr; simp at hpr
            · rw [if_neg hi] at hpr
              simp only [List.mem_singleton] at hpr
              rw [hpr]
              refine ⟨cleanKey_lits.2.2.2.2.2.2.1, joinSep_okVal _ ?_ htoksI⟩
              intro hemp
              rw [List.map_eq_nil_iff] at hemp
              rw [hemp] at hi
              simp at hi
        · by_cases hee : p.endpoint = []
          · rw [if_pos hee] at hpr; simp at hpr
          · rw [if_neg hee] at hpr
            simp only [List.mem_singleton] at hpr
            rw [hpr]
            rcases hep with hep | hep
            · exact absurd hep hee
            · exact ⟨cleanKey_lits.2.2.2.2.2.2.2.1, okVal_of_cleanVal _ hep⟩
      · by_cases hkk : p.keepAlive = 0
        · rw [if_pos hkk] at hpr; simp at hpr
        · rw [if_neg hkk] at hpr
          simp only [List.mem_singleton] at hpr
          rw [hpr]
          exact ⟨cleanKey_lits.2.2.2.2.2.2.2.2,
            okVal_of_cleanVal _ (intRender_cleanVal p.keepAlive)⟩
  · have hlow : lowerKeys ((("PublicKey").toList, pkB64) ::
        ((if p.preSharedKey = zeros64 then [] else [(("PresharedKey").toList, pskB64)]) ++
         (if p.allowedIPs.isEmpty then [] else
          [(("AllowedIPs").toList, joinSep ((", ").toList) (p.allowedIPs.map printPfx))]) ++
         (if p.endpoint = [] then [] else [(("Endpoint").toList, p.endpoint)]) ++
         (if p.keepAlive = 0 then []
          else [(("PersistentKeepalive").toList, intRender p.keepAlive)]))) =
        ((("publickey").toList, pkB64) ::
        ((if p.preSharedKey = zeros64 then [] else [(("presharedkey").toList, pskB64)]) ++
         (if p.allowedIPs.isEmpty then [] else
          [(("allowedips").toList, joinSep ((", ").toList) (p.allowedIPs.map printPfx))]) ++
         (if p.endpoint = [] then [] else [(("endpoint").toList, p.endpoint)]) ++
         (if p.keepAlive = 0 then []
          else [(("persistentkeepalive").toList, intRender p.keepAlive)]))) := by
      simp only [lowerKeys, List.map_cons, List.map_append, apply_ite (List.map _),
        List.map_nil, List.map_singleton, lower_lit_publickey, lower_lit_presharedkey,
        lower_lit_allowedips, lower_lit_endpoint, lower_lit_keepalive]
    rw [hlow]
    have hkPK : keyPresent (("publickey").toList) ((("publickey").toList, pkB64) ::
        ((if p.preSharedKey = zeros64 then [] else [(("presharedkey").toList, pskB64)]) ++
         (if p.allowedIPs.isEmpty then [] else
          [(("allowedips").toList, joinSep ((", ").toList) (p.allowedIPs.map printPfx))]) ++
         (if p.endpoint = [] then [] else [(("endpoint").toList, p.endpoint)]) ++
         (if p.keepAlive = 0 then []
          else [(("persistentkeepalive").toList, intRender p.keepAlive)]))) = true := by
      rw [keyPresent_cons]
      simp
    have hksPK : keyString (("publickey").toList) ((("publickey").toList, pkB64) ::
        ((if p.preSharedKey = zeros64 then [] else [(("presharedkey").toList, pskB64)]) ++
         (if p.allowedIPs.isEmpty then [] else
          [(("allowedips").toList, joinSep ((", ").toList) (p.allowedIPs.map printPfx))]) ++
         (if p.endpoint = [] then [] else [(("endpoint").toList, p.endpoint)]) ++
         (if p.keepAlive = 0 then []
          else [(("persistentkeepalive").toList, intRender p.keepAlive)]))) = pkB64 := by
      rw [keyString, valuesOfKey_cons_eq]
      rfl
    have hvPS : valuesOfKey (("presharedkey").toList) ((("publickey").toList, pkB64) ::
        ((if p.preSharedKey = zeros64 then [] else [(("presharedkey").toList, pskB64)]) ++
         (if p.allowedIPs.isEmpty then [] else
          [(("allowedips").toList, joinSep ((", ").toList) (p.allowedIPs.map printPfx))]) ++
         (if p.endpoint = [] then [] else [(("endpoint").toList, p.endpoint)]) ++
         (if p.keepAlive = 0 then []
          else [(("persistentkeepalive").toList, intRender p.keepAlive)]))) =
        (if p.preSharedKey = zeros64 then [] else [pskB64]) := by
      rw [valuesOfKey_cons_ne _ _ _ _ (by decide)]
      by_cases hz : p.preSharedKey = zeros64 <;> by_cases hi : p.allowedIPs.isEmpty <;>
        by_cases he : p.endpoint = [] <;> by_cases hk : p.keepAlive = 0 <;>
        simp [hz, hi, he, hk, valuesOfKey, List.filter_cons]
    have hkPS : keyPresent (("presharedkey").toList) ((("publickey").toList, pkB64) ::
        ((if p.preSharedKey = zeros64 then [] else [(("presharedkey").toList, pskB64)]) ++
         (if p.allowedIPs.isEmpty then [] else
          [(("allowedips").toList, joinSep ((", ").toList) (p.allowedIPs.map printPfx))]) ++
         (if p.endpoint = [] then [] else [(("endpoint").toList, p.endpoint)]) ++
         (if p.keepAlive = 0 then []
          else [(("persistentkeepalive").toList, intRender p.keepAlive)]))) =
        !(p.preSharedKey == zeros64) := by
      by_cases hz : p.preSharedKey = zeros64 <;> by_cases hi : p.allowedIPs.isEmpty <;>
        by_cases he : p.endpoint = [] <;> by_cases hk : p.keepAlive = 0 <;>
        simp [hz, hi, he, hk, keyPresent]
    have hvIP : valuesOfKey (("allowedips").toList) ((("publickey").toList, pkB64) ::
        ((if p.preSharedKey = zeros64 then [] else [(("presharedkey").toList, pskB64)]) ++
         (if p.allowedIPs.isEmpty then [] else
          [(("allowedips").toList, joinSep ((", ").toList) (p.allowedIPs.map printPfx))]) ++
         (if p.endpoint = [] then [] else [(("endpoint").toList, p.endpoint)]) ++
         (if p.keepAlive = 0 then []
          else [(("persistentkeepalive").toList, intRender p.keepAlive)]))) =
        (if p.allowedIPs.isEmpty then []
         else [joinSep ((", ").toList) (p.allowedIPs.map printPfx)]) := by
      rw [valuesOfKey_cons_ne _ _ _ _ (by decide)]
      by_cases hz : p.preSharedKey = zeros64 <;> by_cases hi : p.allowedIPs.isEmpty <;>
        by_cases he : p.endpoint = [] <;> by_cases hk : p.keepAlive = 0 <;>
        simp [hz, hi, he, hk, valuesOfKey, List.filter_cons]
    have hkIP : keyPresent (("allowedips").toList) ((("publickey").toList, pkB64) ::
        ((if p.preSharedKey = zeros64 then [] else [(("presharedkey").toList, pskB64)]) ++
         (if p.allowedIPs.isEmpty then [] else
          [(("allowedips").toList, joinSep ((", ").toList) (p.allowedIPs.map printPfx))]) ++
         (if p.endpoint = [] then [] else [(("endpoint").toList, p.endpoint)]) ++
         (if p.keepAlive = 0 then []
          else [(("persistentkeepalive").toList, intRender p.keepAlive)]))) = !p.allowedIPs.isEmpty := by
      by_cases hz : p.preSharedKey = zeros64 <;> by_cases hi : p.allowedIPs.isEmpty <;>
        by_cases he : p.endpoint = [] <;> by_cases hk : p.keepAlive = 0 <;>
        simp [hz, hi, he, hk, keyPresent]
    have hvEP : valuesOfKey (("endpoint").toList) ((("publickey").toList, pkB64) ::
        ((if p.preSharedKey = zeros64 then [] else [(("presharedkey").toList, pskB64)]) ++
         (if p.allowedIPs.isEmpty then [] else
          [(("allowedips").toList, joinSep ((", ").toList) (p.allowedIPs.map printPfx))]) ++
         (if p.endpoint = [] then [] else [(("endpoint").toList, p.endpoint)]) ++
         (if p.keepAlive = 0 then []
          else [(("persistentkeepalive").toList, intRender p.keepAlive)]))) =
        (if p.endpoint = [] then [] else [p.endpoint]) := by
      rw [valuesOfKey_cons_ne _ _ _ _ (by decide)]
      by_cases hz : p.preSharedKey = zeros64 <;> by_cases hi : p.allowedIPs.isEmpty <;>
        by_cases he : p.endpoint = [] <;> by_cases hk : p.keepAlive = 0 <;>
        simp [hz, hi, he, hk, valuesOfKey, List.filter_cons]
    have hkEP : keyPresent (("endpoint").toList) ((("publickey").toList, pkB64) ::
        ((if p.preSharedKey = zeros64 then [] else [(("presharedkey").toList, pskB64)]) ++
         (if p.allowedIPs.isEmpty then [] else
          [(("allowedips").toList, joinSep ((", ").toList) (p.allowedIPs.map printPfx))]) ++
         (if p.endpoint = [] then [] else [(("endpoint").toList, p.endpoint)]) ++
         (if p.keepAlive = 0 then []
          else [(("persistentkeepalive").toList, intRender p.keepAlive)]))) =
        !(p.endpoint == []) := by
      by_cases hz : p.preSharedKey = zeros64 <;> by_cases hi : p.allowedIPs.isEmpty <;>
        by_cases he : p.endpoint = [] <;> by_cases hk : p.keepAlive = 0 <;>
        simp [hz, hi, he, hk, keyPresent]
    have hvKA : valuesOfKey (("persistentkeepalive").toList) ((("publickey").toList, pkB64) ::
        ((if p.preSharedKey = zeros64 then [] else [(("presharedkey").toList, pskB64)]) ++
         (if p.allowedIPs.isEmpty then [] else
          [(("allowedips").toList, joinSep ((", ").toList) (p.allowedIPs.map printPfx))]) ++
         (if p.endpoint = [] then [] else [(("endpoint").toList, p.endpoint)]) ++
         (if p.keepAlive = 0 then []
          else [(("persistentkeepalive").toList, intRender p.keepAlive)]))) =
        (if p.keepAlive = 0 then [] else [intRender p.keepAlive]) := by
      rw [valuesOfKey_cons_ne _ _ _ _ (by decide)]
      by_cases hz : p.preSharedKey = zeros64 <;> by_cases hi : p.allowedIPs.isEmpty <;>
        by_cases he : p.endpoint = [] <;> by_cases hk : p.keepAlive = 0 <;>
        simp [hz, hi, he, hk, valuesOfKey, List.filter_cons]
    have hkKA : keyPresent (("persistentkeepalive").toList) ((("publickey").toList, pkB64) ::
        ((if p.preSharedKey = zeros64 then [] else [(("presharedkey").toList, pskB64)]) ++
         (if p.allowedIPs.isEmpty then [] else
          [(("allowedips").toList, joinSep ((", ").toList) (p.allowedIPs.map printPfx))]) ++
         (if p.endpoint = [] then [] else [(("endpoint").toList, p.endpoint)]) ++
         (if p.keepAlive = 0 then []
          else [(("persistentkeepalive").toList, intRender p.keepAlive)]))) =
        !(p.keepAlive == 0) := by
      by_cases hz : p.preSharedKey = zeros64 <;> by_cases hi : p.allowedIPs.isEmpty <;>
        by_cases he : p.endpoint = [] <;> by_cases hk : p.keepAlive = 0 <;>
        simp [hz, hi, he, hk, keyPresent]
    have hpkval : (if keyPresent (("publickey").toList) ((("publickey").toList, pkB64) ::
        ((if p.preSharedKey = zeros64 then [] else [(("presharedkey").toList, pskB64)]) ++
         (if p.allowedIPs.isEmpty then [] else
          [(("allowedips").toList, joinSep ((", ").toList) (p.allowedIPs.map printPfx))]) ++
         (if p.endpoint = [] then [] else [(("endpoint").toList, p.endpoint)]) ++
         (if p.keepAlive = 0 then []
          else [(("persistentkeepalive").toList, intRender p.keepAlive)]))) = true then
          encodeBase64ToHex (keyString (("publickey").toList) ((("publickey").toList, pkB64) ::
        ((if p.preSharedKey = zeros64 then [] else [(("presharedkey").toList, pskB64)]) ++
         (if p.allowedIPs.isEmpty then [] else
          [(("allowedips").toList, joinSep ((", ").toList) (p.allowedIPs.map printPfx))]) ++
         (if p.endpoint = [] then [] else [(("endpoint").toList, p.endpoint)]) ++
         (if p.keepAlive = 0 then []
          else [(("persistentkeepalive").toList, intRender p.keepAlive)]))))
        else some []) = some p.publicKey := by
      rw [hkPK, if_pos rfl, hksPK, hbpk2]
    have hpskval : (if keyPresent (("presharedkey").toList) ((("publickey").toList, pkB64) ::
        ((if p.preSharedKey = zeros64 then [] else [(("presharedkey").toList, pskB64)]) ++
         (if p.allowedIPs.isEmpty then [] else
          [(("allowedips").toList, joinSep ((", ").toList) (p.allowedIPs.map printPfx))]) ++
         (if p.endpoint = [] then [] else [(("endpoint").toList, p.endpoint)]) ++
         (if p.keepAlive = 0 then []
          else [(("persistentkeepalive").toList, intRender p.keepAlive)]))) = true then
          encodeBase64ToHex (keyString (("presharedkey").toList) ((("publickey").toList, pkB64) ::
        ((if p.preSharedKey = zeros64 then [] else [(("presharedkey").toList, pskB64)]) ++
         (if p.allowedIPs.isEmpty then [] else
          [(("allowedips").toList, joinSep ((", ").toList) (p.allowedIPs.map printPfx))]) ++
         (if p.endpoint = [] then [] else [(("endpoint").toList, p.endpoint)]) ++
         (if p.keepAlive = 0 then []
          else [(("persistentkeepalive").toList, intRender p.keepAlive)]))))
        else some zeros64) = some p.preSharedKey := by
      rw [hkPS]
      cases hb : (p.preSharedKey == zeros64) with
      | true =>
        have hzz : p.preSharedKey = zeros64 := by simpa using hb
        rw [if_neg (by decide), hzz]
      | false =>
        have hzz : ¬(p.preSharedKey = zeros64) := by simpa using hb
        have hksPS : keyString (("presharedkey").toList) ((("publickey").toList, pkB64) ::
        ((if p.preSharedKey = zeros64 then [] else [(("presharedkey").toList, pskB64)]) ++
         (if p.allowedIPs.isEmpty then [] else
          [(("allowedips").toList, joinSep ((", ").toList) (p.allowedIPs.map printPfx))]) ++
         (if p.endpoint = [] then [] else [(("endpoint").toList, p.endpoint)]) ++
         (if p.keepAlive = 0 then []
          else [(("persistentkeepalive").toList, intRender p.keepAlive)]))) = pskB64 := by
          rw [keyString, hvPS, if_neg hzz]
          rfl
        rw [if_pos (by decide), hksPS, hbps2]
    have hkaval : (if keyPresent (("persistentkeepalive").toList) ((("publickey").toList, pkB64) ::
        ((if p.preSharedKey = zeros64 then [] else [(("presharedkey").toList, pskB64)]) ++
         (if p.allowedIPs.isEmpty then [] else
          [(("allowedips").toList, joinSep ((", ").toList) (p.allowedIPs.map printPfx))]) ++
         (if p.endpoint = [] then [] else [(("endpoint").toList, p.endpoint)]) ++
         (if p.keepAlive = 0 then []
          else [(("persistentkeepalive").toList, intRender p.keepAlive)]))) = true then
          intParse (keyString (("persistentkeepalive").toList) ((("publickey").toList, pkB64) ::
        ((if p.preSharedKey = zeros64 then [] else [(("presharedkey").toList, pskB64)]) ++
         (if p.allowedIPs.isEmpty then [] else
          [(("allowedips").toList, joinSep ((", ").toList) (p.allowedIPs.map printPfx))]) ++
         (if p.endpoint = [] then [] else [(("endpoint").toList, p.endpoint)]) ++
         (if p.keepAlive = 0 then []
          else [(("persistentkeepalive").toList, intRender p.keepAlive)]))))
        else some 0) = some p.keepAlive := by
      rw [hkKA]
      cases hb : (p.keepAlive == 0) with
      | true =>
        have hzz : p.keepAlive = 0 := by simpa using hb
        rw [if_neg (by decide), hzz]
      | false =>
        have hzz : ¬(p.keepAlive = 0) := by simpa using hb
        have hksKA : keyString (("persistentkeepalive").toList) ((("publickey").toList, pkB64) ::
        ((if p.preSharedKey = zeros64 then [] else [(("presharedkey").toList, pskB64)]) ++
         (if p.allowedIPs.isEmpty then [] else
          [(("allowedips").toList, joinSep ((", ").toList) (p.allowedIPs.map printPfx))]) ++
         (if p.endpoint = [] then [] else [(("endpoint").toList, p.endpoint)]) ++
         (if p.keepAlive = 0 then []
          else [(("persistentkeepalive").toList, intRender p.keepAlive)]))) =
            intRender p.keepAlive := by
          rw [keyString, hvKA, if_neg hzz]
          rfl
        rw [if_pos (by decide), hksKA]
        exact intParse_intRender p.keepAlive
    have hmapI : (p.allowedIPs.map printPfx).mapM parsePfx = some p.allowedIPs := by
      apply mapM_print
      intro q hq
      exact (hips q hq).1
    have hipsval : (if keyPresent (("allowedips").toList) ((("publickey").toList, pkB64) ::
        ((if p.preSharedKey = zeros64 then [] else [(("presharedkey").toList, pskB64)]) ++
         (if p.allowedIPs.isEmpty then [] else
          [(("allowedips").toList, joinSep ((", ").toList) (p.allowedIPs.map printPfx))]) ++
         (if p.endpoint = [] then [] else [(("endpoint").toList, p.endpoint)]) ++
         (if p.keepAlive = 0 then []
          else [(("persistentkeepalive").toList, intRender p.keepAlive)]))) = true then
          (stringsWithShadows (("allowedips").toList) ((("publickey").toList, pkB64) ::
        ((if p.preSharedKey = zeros64 then [] else [(("presharedkey").toList, pskB64)]) ++
         (if p.allowedIPs.isEmpty then [] else
          [(("allowedips").toList, joinSep ((", ").toList) (p.allowedIPs.map printPfx))]) ++
         (if p.endpoint = [] then [] else [(("endpoint").toList, p.endpoint)]) ++
         (if p.keepAlive = 0 then []
          else [(("persistentkeepalive").toList, intRender p.keepAlive)])))).mapM parsePfx
        else some []) = some p.allowedIPs := by
      rw [hkIP]
      by_cases hbb : p.allowedIPs.isEmpty = true
      · rw [if_neg (by simp [hbb]), List.isEmpty_iff.mp hbb]
      · have hb : p.allowedIPs.isEmpty = false := by simpa using hbb
        have hsw : stringsWithShadows (("allowedips").toList) ((("publickey").toList, pkB64) ::
        ((if p.preSharedKey = zeros64 then [] else [(("presharedkey").toList, pskB64)]) ++
         (if p.allowedIPs.isEmpty then [] else
          [(("allowedips").toList, joinSep ((", ").toList) (p.allowedIPs.map printPfx))]) ++
         (if p.endpoint = [] then [] else [(("endpoint").toList, p.endpoint)]) ++
         (if p.keepAlive = 0 then []
          else [(("persistentkeepalive").toList, intRender p.keepAlive)]))) =
            p.allowedIPs.map printPfx := by
          rw [stringsWithShadows, valueWithShadows, hvIP, hb, if_neg (by decide)]
          have hane : p.allowedIPs ≠ [] := by
            intro hemp; rw [hemp] at hb; simp at hb
          have hmne : p.allowedIPs.map printPfx ≠ [] := by simp [hane]
          have hJne : joinSep ((", ").toList) (p.allowedIPs.map printPfx) ≠ [] :=
            joinSep_ne_nil _ _ hmne (fun t ht => cleanTok_ne_nil t (htoksI t ht))
          have hie : (joinSep ((", ").toList) (p.allowedIPs.map printPfx)).isEmpty = false := by
            cases hj : joinSep ((", ").toList) (p.allowedIPs.map printPfx) with
            | nil => exact absurd hj hJne
            | cons a b => rfl
          have hfil : ([joinSep ((", ").toList) (p.allowedIPs.map printPfx)].filter
              (fun v => !v.isEmpty)) = [joinSep ((", ").toList) (p.allowedIPs.map printPfx)] := by
            simp only [List.filter_cons]
            rw [hie]
            rfl
          rw [hfil]
          simp only [List.map_cons, List.map_nil, List.flatten_cons, List.flatten_nil,
            List.append_nil]
          exact splitJoin_toks _ hmne htoksI
        rw [if_pos (by simp [hb]), hsw]
        exact hmapI
    have hepval : (if keyPresent (("endpoint").toList) ((("publickey").toList, pkB64) ::
        ((if p.preSharedKey = zeros64 then [] else [(("presharedkey").toList, pskB64)]) ++
         (if p.allowedIPs.isEmpty then [] else
          [(("allowedips").toList, joinSep ((", ").toList) (p.allowedIPs.map printPfx))]) ++
         (if p.endpoint = [] then [] else [(("endpoint").toList, p.endpoint)]) ++
         (if p.keepAlive = 0 then []
          else [(("persistentkeepalive").toList, intRender p.keepAlive)]))) = true then
          keyString (("endpoint").toList) ((("publickey").toList, pkB64) ::
        ((if p.preSharedKey = zeros64 then [] else [(("presharedkey").toList, pskB64)]) ++
         (if p.allowedIPs.isEmpty then [] else
          [(("allowedips").toList, joinSep ((", ").toList) (p.allowedIPs.map printPfx))]) ++
         (if p.endpoint = [] then [] else [(("endpoint").toList, p.endpoint)]) ++
         (if p.keepAlive = 0 then []
          else [(("persistentkeepalive").toList, intRender p.keepAlive)])))
        else []) = p.endpoint := by
      rw [hkEP]
      cases hb : (p.endpoint == []) with
      | true =>
        have hzz : p.endpoint = [] := by simpa using hb
        rw [if_neg (by decide), hzz]
      | false =>
        have hzz : ¬(p.endpoint = []) := by simpa using hb
        have hksEP : keyString (("endpoint").toList) ((("publickey").toList, pkB64) ::
        ((if p.preSharedKey = zeros64 then [] else [(("presharedkey").toList, pskB64)]) ++
         (if p.allowedIPs.isEmpty then [] else
          [(("allowedips").toList, joinSep ((", ").toList) (p.allowedIPs.map printPfx))]) ++
         (if p.endpoint = [] then [] else [(("endpoint").toList, p.endpoint)]) ++
         (if p.keepAlive = 0 then []
          else [(("persistentkeepalive").toList, intRender p.keepAlive)]))) = p.endpoint := by
          rw [keyString, hvEP, if_neg hzz]
          rfl
        rw [if_pos (by decide), hksEP]
    rw [parsePeerSec]
    rw [hpkval, hpskval, hkaval, hipsval, hepval]
    rfl

/-- The round-trip for the peer list: rendered blocks exist, are clean, and
the corresponding `peer` sections parse back to the same peers. -/
theorem peers_roundtrip (printPfx : π → List Char) (parsePfx : List Char → Option π) :
    ∀ (ps : List (PeerConfig π)), (∀ p ∈ ps, WFPeer printPfx parsePfx p) →
      ∃ pkvss, ps.mapM (renderPeerKvs printPfx) = some pkvss ∧
        (∀ kvsl ∈ pkvss, ∀ pr ∈ kvsl, cleanKey pr.1 = true ∧ okVal pr.2 = true) ∧
        ((pkvss.map (fun kvsl =>
            ((("peer").toList : List Char), kvsl.map (fun pr => (lower pr.1, pr.2))))).mapM
          (fun sec => parsePeerSec parsePfx sec.2)) = some ps
  | [], _ => ⟨[], rfl, by simp, rfl⟩
  | p :: ps, h => by
    obtain ⟨kvsl, h1, h2, h3⟩ := peer_roundtrip printPfx parsePfx p (h p (by simp))
    obtain ⟨pkvss, ih1, ih2, ih3⟩ := peers_roundtrip printPfx parsePfx ps
      (fun q hq => h q (by simp [hq]))
    simp only [lowerKeys] at h3
    refine ⟨kvsl :: pkvss, ?_, ?_, ?_⟩
    · rw [List.mapM_cons, h1, ih1]
      rfl
    · intro k hk
      rcases List.mem_cons.mp hk with hk | hk
      · subst hk
        exact h2
      · exact ih2 k hk
    · simp only [List.map_cons, List.mapM_cons]
      rw [h3, ih3]
      rfl

theorem filter_peerSecs_interface :
    ∀ (l : List (List (List Char × List Char))),
      ((l.map (fun kvsl =>
          ((("peer").toList : List Char), kvsl.map (fun pr => (lower pr.1, pr.2))))).filter
        (fun s => s.1 == ("interface").toList)) = []
  | [] => rfl
  | a :: t => by
    simp only [List.map_cons, List.filter_cons]
    rw [if_neg (by decide)]
    exact filter_peerSecs_interface t

theorem filter_peerSecs_peer :
    ∀ (l : List (List (List Char × List Char))),
      ((l.map (fun kvsl =>
          ((("peer").toList : List Char), kvsl.map (fun pr => (lower pr.1, pr.2))))).filter
        (fun s => s.1 == ("peer").toList)) =
      l.map (fun kvsl =>
        ((("peer").toList : List Char), kvsl.map (fun pr => (lower pr.1, pr.2))))
  | [] => rfl
  | a :: t => by
    simp only [List.map_cons, List.filter_cons]
    rw [if_pos (by decide)]
    rw [filter_peerSecs_peer t]

/-- C3. A configuration accepted by `ParseConfig` round-trips through
`Configuration.String` and `ParseConfig`: every field of the interface and of
every peer is restored, except `FwMark`, which `Configuration.String` never
emits and `ParseInterface` therefore defaults back to `0`. -/
theorem config_string_parse_roundtrip (printPfx : π → List Char)
    (parsePfx : List Char → Option π) (printAddr : α → List Char)
    (parseAddr : List Char → Option α) (widen : α → π) (c : Configuration π α)
    (hwf : WFConfig printPfx parsePfx printAddr parseAddr c) :
    ∃ doc, renderConfig printPfx printAddr c = some doc ∧
      parseConfigC parsePfx parseAddr widen doc =
        some ⟨⟨c.iface.privateKey, c.iface.addresses, c.iface.dns, c.iface.mtu, 0⟩,
          c.peers⟩ := by
  obtain ⟨hwi, hne, hwp⟩ := hwf
  obtain ⟨ikvs, hi1, hi2, hi3⟩ :=
    interface_roundtrip printPfx parsePfx printAddr parseAddr widen c.iface hwi
  obtain ⟨pkvss, hp1, hp2, hp3⟩ := peers_roundtrip printPfx parsePfx c.peers hwp
  simp only [lowerKeys] at hi3
  have hpkne : pkvss ≠ [] := by
    intro hemp
    rw [hemp] at hp3
    simp only [List.map_nil] at hp3
    have : ([] : List (PeerConfig π)) = c.peers := by
      have h0 : (some ([] : List (PeerConfig π))) = some c.peers := hp3
      exact Option.some.inj h0
    exact hne this.symm
  refine ⟨(("[Interface]").toList :: ikvs.map (fun pr => kvLine pr.1 pr.2)) ++
    (pkvss.map (fun kvsl =>
      [] :: ("[Peer]").toList :: kvsl.map (fun pr => kvLine pr.1 pr.2))).flatten, ?_, ?_⟩
  · rw [renderConfig, hi1, hp1]
    rfl
  · have hini : iniParse
        ((("[Interface]").toList :: ikvs.map (fun pr => kvLine pr.1 pr.2)) ++
         (pkvss.map (fun kvsl =>
           [] :: ("[Peer]").toList :: kvsl.map (fun pr => kvLine pr.1 pr.2))).flatten) =
        some (((("default").toList : List Char), ([] : List (List Char × List Char))) ::
       ((("interface").toList : List Char), ikvs.map (fun pr => (lower pr.1, pr.2))) ::
       pkvss.map (fun kvsl =>
         ((("peer").toList : List Char), kvsl.map (fun pr => (lower pr.1, pr.2))))) := by
      rw [iniParse]
      simp only [List.cons_append]
      rw [iniAux_header_step _ _ _ _ _ _ parseLine_iface_header]
      rw [iniAux_kv_batch ikvs _ _ _ _ hi2]
      rw [iniAux_peer_blocks pkvss _ _ _ hp2]
      simp
    have hsecI : sectionsByName (("interface").toList) (((("default").toList : List Char), ([] : List (List Char × List Char))) ::
       ((("interface").toList : List Char), ikvs.map (fun pr => (lower pr.1, pr.2))) ::
       pkvss.map (fun kvsl =>
         ((("peer").toList : List Char), kvsl.map (fun pr => (lower pr.1, pr.2))))) =
        [((("interface").toList : List Char), ikvs.map (fun pr => (lower pr.1, pr.2)))] := by
      simp only [sectionsByName, List.filter_cons]
      rw [if_neg (by decide), if_pos (by decide), filter_peerSecs_interface pkvss]
    have hsecP : sectionsByName (("peer").toList) (((("default").toList : List Char), ([] : List (List Char × List Char))) ::
       ((("interface").toList : List Char), ikvs.map (fun pr => (lower pr.1, pr.2))) ::
       pkvss.map (fun kvsl =>
         ((("peer").toList : List Char), kvsl.map (fun pr => (lower pr.1, pr.2))))) =
        pkvss.map (fun kvsl =>
          ((("peer").toList : List Char), kvsl.map (fun pr => (lower pr.1, pr.2)))) := by
      simp only [sectionsByName, List.filter_cons]
      rw [if_neg (by decide), if_neg (by decide), filter_peerSecs_peer pkvss]
    have hiface : parseInterfaceC parsePfx parseAddr widen (((("default").toList : List Char), ([] : List (List Char × List Char))) ::
       ((("interface").toList : List Char), ikvs.map (fun pr => (lower pr.1, pr.2))) ::
       pkvss.map (fun kvsl =>
         ((("peer").toList : List Char), kvsl.map (fun pr => (lower pr.1, pr.2))))) =
        some ⟨c.iface.privateKey, c.iface.addresses, c.iface.dns, c.iface.mtu, 0⟩ := by
      rw [parseInterfaceC, hsecI]
      exact hi3
    have hlen : ¬((pkvss.map (fun kvsl =>
        ((("peer").toList : List Char),
          kvsl.map (fun pr => (lower pr.1, pr.2))))).length < 1) := by
      simp only [List.length_map]
      have h0 : pkvss.length ≠ 0 := fun h0 => hpkne (List.length_eq_zero.mp h0)
      omega
    have hpeers : parsePeersC parsePfx (((("default").toList : List Char), ([] : List (List Char × List Char))) ::
       ((("interface").toList : List Char), ikvs.map (fun pr => (lower pr.1, pr.2))) ::
       pkvss.map (fun kvsl =>
         ((("peer").toList : List Char), kvsl.map (fun pr => (lower pr.1, pr.2))))) = some c.peers := by
      simp only [parsePeersC]
      rw [hsecP, if_neg hlen]
      exact hp3
    have hstep1 : parseConfigC parsePfx parseAddr widen
        ((("[Interface]").toList :: ikvs.map (fun pr => kvLine pr.1 pr.2)) ++
         (pkvss.map (fun kvsl =>
           [] :: ("[Peer]").toList :: kvsl.map (fun pr => kvLine pr.1 pr.2))).flatten) =
        (parseInterfaceC parsePfx parseAddr widen (((("default").toList : List Char), ([] : List (List Char × List Char))) ::
       ((("interface").toList : List Char), ikvs.map (fun pr => (lower pr.1, pr.2))) ::
       pkvss.map (fun kvsl =>
         ((("peer").toList : List Char), kvsl.map (fun pr => (lower pr.1, pr.2)))))).bind
          (fun iface => (parsePeersC parsePfx (((("default").toList : List Char), ([] : List (List Char × List Char))) ::
       ((("interface").toList : List Char), ikvs.map (fun pr => (lower pr.1, pr.2))) ::
       pkvss.map (fun kvsl =>
         ((("peer").toList : List Char), kvsl.map (fun pr => (lower pr.1, pr.2)))))).bind
            (fun peers => some ⟨iface, peers⟩)) := by
      rw [parseConfigC, hini]
      rfl
    rw [hstep1, hiface, hpeers]
    rfl

/-- A trivial one-address universe used to instantiate the round-trip at a
concrete configuration. -/
def unitPrintPfx (_ : Unit) : List Char := ("0.0.0.0/0").toList

def unitParsePfx (s : List Char) : Option Unit :=
  if s = ("0.0.0.0/0").toList then some () else none

def unitPrintAddr (_ : Unit) : List Char := ("0.0.0.0").toList

def unitParseAddr (s : List Char) : Option Unit :=
  if s = ("0.0.0.0").toList then some () else none

def unitWiden (_ : Unit) : Unit := ()

def sampleConfig : Configuration Unit Unit :=
  ⟨⟨zeros64, [], [], 0, 0⟩, [⟨zeros64, zeros64, [], 0, []⟩]⟩

theorem config_string_parse_roundtrip_witness :
    WFConfig unitPrintPfx unitParsePfx unitPrintAddr unitParseAddr sampleConfig ∧
    ∃ doc, renderConfig unitPrintPfx unitPrintAddr sampleConfig = some doc ∧
      parseConfigC unitParsePfx unitParseAddr unitWiden doc =
        some ⟨⟨sampleConfig.iface.privateKey, sampleConfig.iface.addresses,
          sampleConfig.iface.dns, sampleConfig.iface.mtu, 0⟩, sampleConfig.peers⟩ := by
  have hw : WFConfig unitPrintPfx unitParsePfx unitPrintAddr unitParseAddr sampleConfig := by
    refine ⟨⟨by decide, ?_, ?_⟩, by decide, ?_⟩
    · intro q hq
      simp [sampleConfig] at hq
    · intro a ha
      simp [sampleConfig] at ha
    · intro p hp
      have hp1 : p = ⟨zeros64, zeros64, [], 0, []⟩ := by
        simpa [sampleConfig] using hp
      subst hp1
      refine ⟨by decide, by decide, Or.inl rfl, ?_⟩
      intro q hq
      simp at hq
  exact ⟨hw, config_string_parse_roundtrip unitPrintPfx unitParsePfx unitPrintAddr
    unitParseAddr unitWiden sampleConfig hw⟩

/-- A successful `EncodeBase64ToHex` always yields 64 lowercase hex digits. -/
theorem encodeBase64ToHex_isHex64 (s h : List Char)
    (he : encodeBase64ToHex s = some h) : isHex64 h = true := by
  cases hb : b64Decode s with
  | none =>
    simp only [encodeBase64ToHex, hb] at he
    exact Option.noConfusion he
  | some bs =>
    simp only [encodeBase64ToHex, hb] at he
    by_cases hl : bs.length = 32
    · rw [if_neg (by simp [hl])] at he
      have hh : h = hexEncode bs := (Option.some.inj he).symm
      rw [hh]
      exact isHex64_hexEncode bs hl (b64Decode_bytes_lt s bs hb)
    · rw [if_pos hl] at he
      exact Option.noConfusion he

/-- Every element of a successful `mapM` comes from some input element. -/
theorem mapM_mem_ex {β γ : Type} (g : β → Option γ) :
    ∀ (l : List β) (res : List γ), l.mapM g = some res →
      ∀ y ∈ res, ∃ x ∈ l, g x = some y
  | [], res, h, y, hy => by
    have hres : res = [] := by
      have h0 : (some ([] : List γ)) = some res := h
      exact (Option.some.inj h0).symm
    subst hres
    simp at hy
  | x :: l, res, h, y, hy => by
    rw [List.mapM_cons] at h
    cases hgx : g x with
    | none =>
      rw [hgx] at h
      exact Option.noConfusion h
    | some a =>
      rw [hgx] at h
      cases hml : l.mapM g with
      | none =>
        rw [hml] at h
        exact Option.noConfusion h
      | some as =>
        rw [hml] at h
        have hres : res = a :: as := by
          have h0 : (some (a :: as) : Option (List γ)) = some res := h
          exact (Option.some.inj h0).symm
        subst hres
        rcases List.mem_cons.mp hy with hy | hy
        · subst hy
          exact ⟨x, by simp, hgx⟩
        · obtain ⟨z, hz, hgz⟩ := mapM_mem_ex g l as hml y hy
          exact ⟨z, by simp [hz], hgz⟩

/-- C9 (amended). `ParseConfig` accepts a `[Peer]` section with no
`PublicKey` key, producing a peer whose `PublicKey` is empty; hence every
accepted peer carries a `PublicKey` that is either empty or the lowercase hex
encoding of exactly 32 bytes. -/
theorem parsepeers_publickey_shape (parsePfx : List Char → Option π)
    (parseAddr : List Char → Option α) (widen : α → π) (doc : List (List Char))
    (cfg : Configuration π α)
    (h : parseConfigC parsePfx parseAddr widen doc = some cfg) :
    ∀ p ∈ cfg.peers, p.publicKey = [] ∨ isHex64 p.publicKey = true := by
  intro p hp
  rw [parseConfigC] at h
  rcases Option.bind_eq_some.mp h with ⟨secs, hsecs, h⟩
  rcases Option.bind_eq_some.mp h with ⟨iface, hif, h⟩
  rcases Option.bind_eq_some.mp h with ⟨peers, hps, h⟩
  have hcfg : cfg = ⟨iface, peers⟩ := (Option.some.inj h).symm
  subst hcfg
  have hp' : p ∈ peers := hp
  simp only [parsePeersC] at hps
  by_cases hl : (sectionsByName (("peer").toList) secs).length < 1
  · rw [if_pos hl] at hps
    exact Option.noConfusion hps
  · rw [if_neg hl] at hps
    obtain ⟨sec, hsec, hpsec⟩ := mapM_mem_ex _ _ _ hps p hp'
    rw [parsePeerSec] at hpsec
    rcases Option.bind_eq_some.mp hpsec with ⟨pk, hpk, hrest⟩
    rcases Option.bind_eq_some.mp hrest with ⟨psk, hpsk, hrest⟩
    rcases Option.bind_eq_some.mp hrest with ⟨ka, hka, hrest⟩
    rcases Option.bind_eq_some.mp hrest with ⟨ips, hips, hrest⟩
    have hpeq : (⟨pk, psk,
        (if keyPresent (("endpoint").toList) sec.2 then
          keyString (("endpoint").toList) sec.2
         else []), ka, ips⟩ : PeerConfig π) = p := Option.some.inj hrest
    have hpkfield : p.publicKey = pk := by
      rw [← hpeq]
    rw [hpkfield]
    by_cases hkp : keyPresent (("publickey").toList) sec.2 = true
    · rw [if_pos hkp] at hpk
      exact Or.inr (encodeBase64ToHex_isHex64 _ _ hpk)
    · rw [if_neg hkp] at hpk
      exact Or.inl (Option.some.inj hpk).symm

/-- A document whose `[Peer]` section has no `PublicKey` at all. -/
def c9doc : List (List Char) :=
  [("[Interface]").toList,
   ("PrivateKey=AAAAAAAAAAAAAAAAAAAAAAAAAAAAAAAAAAAAAAAAAAA=").toList,
   ("[Peer]").toList]

/-- C9 (counterexample). `ParseConfig` does not reject a `[Peer]` section
lacking a `PublicKey`: it accepts `c9doc` and leaves the peer's key empty. -/
theorem parsepeers_missing_publickey :
    parseConfigC unitParsePfx unitParseAddr unitWiden c9doc =
      some ⟨⟨zeros64, [], [], 0, 0⟩, [⟨[], zeros64, [], 0, []⟩]⟩ := by
  decide

theorem parsepeers_publickey_shape_witness :
    parseConfigC unitParsePfx unitParseAddr unitWiden c9doc =
      some ⟨⟨zeros64, [], [], 0, 0⟩, [⟨[], zeros64, [], 0, []⟩]⟩ ∧
    ∀ p ∈ (⟨⟨zeros64, [], [], 0, 0⟩,
        [⟨[], zeros64, [], 0, []⟩]⟩ : Configuration Unit Unit).peers,
      p.publicKey = [] ∨ isHex64 p.publicKey = true :=
  ⟨by decide, parsepeers_publickey_shape unitParsePfx unitParseAddr unitWiden c9doc
    ⟨⟨zeros64, [], [], 0, 0⟩, [⟨[], zeros64, [], 0, []⟩]⟩ (by decide)⟩

/-! ## The SOCKS4 request parser (`proxy/socks/socks4/common.go`) -/

/-- The 16-byte IPv4-in-IPv6 slice returned by Go `net.IPv4`. -/
def netIPv4 (a b c d : Nat) : List Nat :=
  [0, 0, 0, 0, 0, 0, 0, 0, 0, 0, 255, 255, a, b, c, d]

/-- `isSocks4a` from socks4/common.go: inspects bytes 0–3 of the request's
IP slice. -/
def isSocks4a (ip : List Nat) : Bool :=
  (ip.getD 0 0 == 0) && (ip.getD 1 0 == 0) && (ip.getD 2 0 == 0) &&
    !(ip.getD 3 0 == 0)

/-- `readUntilNull` from socks4/common.go: the bytes before the first NUL,
and the rest of the stream after it. -/
def readUntilNull : List Nat → Option (List Nat × List Nat)
  | [] => none
  | b :: rest =>
    if b = 0 then some ([], rest)
    else (readUntilNull rest).map (fun pr => (b :: pr.1, pr.2))

/-- `Address` from socks4/common.go (strings kept as byte lists). -/
structure Socks4Addr where
  name : List Nat
  ip : List Nat
  port : Nat
deriving DecidableEq

/-- `Request` from socks4/common.go. -/
structure Socks4Request where
  version : Nat
  command : Nat
  destAddr : Socks4Addr
  user : List Nat
deriving DecidableEq

/-- `NewRequest` from socks4/common.go over the byte stream it reads. -/
def NewRequest (input : List Nat) : Option Socks4Request :=
  match input with
  | ver :: cmd :: p1 :: p2 :: i1 :: i2 :: i3 :: i4 :: rest =>
    if ver ≠ 4 then none
    else
      (readUntilNull rest).bind (fun ur =>
        let ip := netIPv4 i1 i2 i3 i4
        if isSocks4a ip then
          (readUntilNull ur.2).map (fun dr =>
            ⟨ver, cmd, ⟨dr.1, ip, p1 * 256 + p2⟩, ur.1⟩)
        else some ⟨ver, cmd, ⟨[], ip, p1 * 256 + p2⟩, ur.1⟩)
  | _ => none

/-- Dotted-quad rendering of four IPv4 bytes. -/
def dottedQuad (a b c d : Nat) : List Char :=
  natRender a ++ ('.' :: natRender b) ++ ('.' :: natRender c) ++
    ('.' :: natRender d)

/-- Go `net.IP.String` on the shapes reachable in this package: a 4-byte
slice or the 16-byte IPv4-in-IPv6 form prints as a dotted quad (`NewRequest`
only ever builds `net.IPv4` slices, so general IPv6 rendering is
unreachable). -/
def ipString (ip : List Nat) : List Char :=
  match ip with
  | [a, b, c, d] => dottedQuad a b c d
  | [0, 0, 0, 0, 0, 0, 0, 0, 0, 0, 255, 255, a, b, c, d] => dottedQuad a b c d
  | _ => []

/-- Go `net.JoinHostPort`. -/
def joinHostPort (host port : List Char) : List Char :=
  if host.contains ':' then ('[' :: host ++ [']']) ++ (':' :: port)
  else host ++ (':' :: port)

/-- `Address.String` from socks4/common.go: prefer the name when present. -/
def socks4AddrString (a : Socks4Addr) : List Char :=
  if a.name.length > 0 then joinHostPort (a.name.map Char.ofNat) (natRender a.port)
  else joinHostPort (ipString a.ip) (natRender a.port)

/-- C1 (code bug). `isSocks4a` inspects bytes 0–3 of the 16-byte slice
returned by `net.IPv4`, which are always zero, so it never detects a SOCKS4a
request: on the request `04 01 | port 80 | 0.0.0.1 | "" NUL | "ex" NUL` the
domain is never read, the name stays empty, and the destination string is
the dotted IP `0.0.0.1:80`, not `ex:80`. -/
theorem socks4a_never_detected :
    (∀ a b c d : Nat, isSocks4a (netIPv4 a b c d) = false) ∧
    NewRequest [4, 1, 0, 80, 0, 0, 0, 1, 0, 101, 120, 0] =
      some ⟨4, 1, ⟨[], netIPv4 0 0 0 1, 80⟩, []⟩ ∧
    socks4AddrString ⟨[], netIPv4 0 0 0 1, 80⟩ = ("0.0.0.1:80").toList := by
  refine ⟨fun a b c d => rfl, by decide, ?_⟩
  have hr0 : natRender 0 = ('0' :: ([] : List Char)) := by
    rw [natRender, natRenderAux, if_pos (by decide)]
    decide
  have hr1 : natRender 1 = ('1' :: ([] : List Char)) := by
    rw [natRender, natRenderAux, if_pos (by decide)]
    decide
  have hr80 : natRender 80 = ('8' :: '0' :: ([] : List Char)) := by
    rw [natRender, natRenderAux, if_neg (by decide), natRenderAux, if_pos (by decide)]
    decide
  have hd : dottedQuad 0 0 0 1 = ("0.0.0.1").toList := by
    simp only [dottedQuad, hr0, hr1]
    decide
  show joinHostPort (dottedQuad 0 0 0 1) (natRender 80) = ("0.0.0.1:80").toList
  rw [hd, hr80]
  decide

/-! ## The tunnel connection handler (`vtun.go`) -/

/-- Connection-level errors, as an abstract datatype: the distinguished
values the code compares against, plus arbitrary other errors. -/
inductive NetError where
  | econnreset
  | eof
  | shortWrite
  | invalidWrite
  | other (code : Nat)
deriving DecidableEq

/-- `virtualTun.handler` from vtun.go as a function of the dial outcome and
the two copier results: a dial failure is returned; otherwise the handler
maps ECONNRESET from the client-to-tunnel copier to nil, receives both
copier results from the `done` channel, and returns nil regardless. -/
def handler (dialErr clientToTun tunToClient : Option NetError) : Option NetError :=
  match dialErr with
  | some e => some e
  | none =>
    let _e1 := if clientToTun = some NetError.econnreset then none else clientToTun
    let _e2 := tunToClient
    none

/-- C2 (code bug). When the dial succeeds, `handler` returns nil for every
pair of copier results — a copier's non-nil, non-ECONNRESET error is
discarded rather than returned — while a dial error is propagated. -/
theorem handler_discards_copy_errors :
    (∀ e1 e2 : Option NetError, handler none e1 e2 = none) ∧
    handler none (some (NetError.other 1)) none = none ∧
    (∀ (e : NetError) (e1 e2 : Option NetError), handler (some e) e1 e2 = some e) :=
  ⟨fun e1 e2 => rfl, rfl, fun e e1 e2 => rfl⟩

/-! ## SOCKS5 method negotiation (`proxy/socks/socks5/auth.go`) -/

/-- `Server.authenticate` from socks5/auth.go, as the selection it makes
from the offered methods: the reply written and whether authentication
proceeds. GSSAPI (0x01) is checked first and always refused; then
username/password (0x02) when credentials are configured; then no-auth
(0x00); else 0xFF. -/
def authenticate (hasCreds : Bool) (methods : List Nat) : List Nat × Bool :=
  if methods.contains 1 then ([5, 1], false)
  else if hasCreds && methods.contains 2 then ([5, 2], true)
  else if methods.contains 0 then ([5, 0], true)
  else ([5, 255], false)

/-- C4 (counterexample). With credentials configured and offered methods
`{0x01, 0x02}` the claim requires selecting `0x02`, but `authenticate`
checks GSSAPI first and replies `0x01`, refusing the connection. -/
theorem socks5_gssapi_preempts_selection :
    authenticate true [1, 2] = ([5, 1], false) ∧
    authenticate true [1, 2] ≠ ([5, 2], true) := by decide

/-- C4 (amended). For every offered method list that does not name GSSAPI
(0x01), the selection is as specified: `0x02` when offered with credentials
configured, else `0x00` when offered, else reply `0xFF` and refuse. -/
theorem socks5_method_selection (hasCreds : Bool) (methods : List Nat)
    (hno1 : methods.contains 1 = false) :
    (hasCreds = true → methods.contains 2 = true →
      authenticate hasCreds methods = ([5, 2], true)) ∧
    ((hasCreds = false ∨ methods.contains 2 = false) →
      methods.contains 0 = true → authenticate hasCreds methods = ([5, 0], true)) ∧
    ((hasCreds = false ∨ methods.contains 2 = false) →
      methods.contains 0 = false →
      authenticate hasCreds methods = ([5, 255], false)) := by
  refine ⟨?_, ?_, ?_⟩
  · intro h1 h2
    rw [authenticate, hno1, if_neg (by decide), h1, h2, if_pos (by decide)]
  · intro h1 h2
    have hand : (hasCreds && methods.contains 2) = false := by
      rcases h1 with h1 | h1
      · rw [h1, Bool.false_and]
      · rw [h1, Bool.and_false]
    rw [authenticate, hno1, if_neg (by decide), hand, if_neg (by decide), h2,
      if_pos (by decide)]
  · intro h1 h2
    have hand : (hasCreds && methods.contains 2) = false := by
      rcases h1 with h1 | h1
      · rw [h1, Bool.false_and]
      · rw [h1, Bool.and_false]
    rw [authenticate, hno1, if_neg (by decide), hand, if_neg (by decide), h2,
      if_neg (by decide)]

theorem socks5_method_selection_witness :
    (([2, 0] : List Nat).contains 1 = false) ∧
    ((true = true → ([2, 0] : List Nat).contains 2 = true →
      authenticate true [2, 0] = ([5, 2], true)) ∧
    ((true = false ∨ ([2, 0] : List Nat).contains 2 = false) →
      ([2, 0] : List Nat).contains 0 = true →
      authenticate true [2, 0] = ([5, 0], true)) ∧
    ((true = false ∨ ([2, 0] : List Nat).contains 2 = false) →
      ([2, 0] : List Nat).contains 0 = false →
      authenticate true [2, 0] = ([5, 255], false))) :=
  ⟨by decide, socks5_method_selection true [2, 0] (by decide)⟩

/-! ## The WireGuard IPC document (`establishWireguard`) -/

/-- The lines of the IPC request built by `establishWireguard`, in order. -/
def establishWireguardIpc (printPfx : π → List Char) (c : Configuration π α)
    (fwmark : Nat) : List (List Char) :=
  (("private_key=").toList ++ c.iface.privateKey) ::
  (("private_key=").toList ++ c.iface.privateKey) ::
  ((if fwmark ≠ 0 then [("fwmark=").toList ++ natRender fwmark] else []) ++
   [("jc=10").toList, ("jmin=50").toList, ("jmax=1000").toList, ("s1=0").toList,
    ("s2=0").toList, ("h1=1").toList, ("h2=2").toList, ("h3=3").toList,
    ("h4=4").toList] ++
   (c.peers.map (fun p =>
     (("public_key=").toList ++ p.publicKey) ::
     (("persistent_keepalive_interval=").toList ++ intRender p.keepAlive) ::
     (("preshared_key=").toList ++ p.preSharedKey) ::
     (("endpoint=").toList ++ p.endpoint) ::
     p.allowedIPs.map (fun q => ("allowed_ip=").toList ++ printPfx q))).flatten)

/-- Whether the first list is an initial segment of the second. -/
def hasPfx : List Char → List Char → Bool
  | [], _ => true
  | _ :: _, [] => false
  | p :: ps, c :: cs => (p == c) && hasPfx ps cs

theorem hasPfx_append : ∀ (p rest : List Char), hasPfx p (p ++ rest) = true
  | [], _ => rfl
  | c :: cs, rest => by
    simp [hasPfx, hasPfx_append cs rest]

/-- C5 (code bug). For every configuration, the IPC document written by
`establishWireguard` begins with the private key line written twice, so it
carries at least two `private_key=` lines where the specification demands
exactly one. -/
theorem establishWireguard_duplicate_private_key (printPfx : π → List Char)
    (c : Configuration π α) (fwmark : Nat) :
    (establishWireguardIpc printPfx c fwmark).take 2 =
      [("private_key=").toList ++ c.iface.privateKey,
       ("private_key=").toList ++ c.iface.privateKey] ∧
    2 ≤ (establishWireguardIpc printPfx c fwmark).countP
      (fun l => hasPfx (("private_key=").toList) l) := by
  constructor
  · rfl
  · have h1 : ((fun l => hasPfx (("private_key=").toList) l)
        ((("private_key=").toList) ++ c.iface.privateKey)) = true := hasPfx_append _ _
    rw [establishWireguardIpc, List.countP_cons_of_pos _ _ h1,
      List.countP_cons_of_pos _ _ h1]
    omega

/-! ## The peer-preparation loop of `WireSocks.Run` (part_000) -/

/-- The peer-preparation loop of `WireSocks.Run`: every peer's keepalive is
set to 5 and its endpoint replaced when resolution succeeds.
`ParseResolveAddressPort` is absent from src/; modelled from the spec as the
abstract `resolve` parameter (resolution yields a replacement address string
or fails). -/
def runPreparePeers (resolve : List Char → Option (List Char))
    (peers : List (PeerConfig π)) : List (PeerConfig π) :=
  peers.map (fun peer =>
    match resolve peer.endpoint with
    | some a2 => ⟨peer.publicKey, peer.preSharedKey, a2, 5, peer.allowedIPs⟩
    | none => ⟨peer.publicKey, peer.preSharedKey, peer.endpoint, 5, peer.allowedIPs⟩)

/-- C6 (code bug). The peer-preparation loop sets every peer's keepalive to
5 unconditionally: a parsed `PersistentKeepalive` of 25 — already above the
5-second minimum — is not preserved. -/
theorem run_overrides_keepalive (resolve : List Char → Option (List Char))
    (peers : List (PeerConfig π)) :
    (∀ q ∈ runPreparePeers resolve peers, q.keepAlive = 5) ∧
    (runPreparePeers (fun _ => none)
      ([⟨[], [], [], 25, []⟩] : List (PeerConfig Unit))).map
      (fun q => q.keepAlive) = [5] := by
  constructor
  · intro q hq
    rw [runPreparePeers] at hq
    obtain ⟨p, hp, rfl⟩ := List.mem_map.mp hq
    cases hr : resolve p.endpoint <;> simp [hr]
  · rfl

/-! ## The embedded SOCKS5 UDP relay (`embedHandleAssociate`) -/

/-- A SOCKS5 address host: IPv4, domain name, or IPv6. -/
inductive S5Host where
  | ip4 (a b c d : Nat)
  | domain (name : List Nat)
  | ip6 (bytes : List Nat)
deriving DecidableEq

/-- A SOCKS5 address with its port. -/
structure S5Addr where
  host : S5Host
  port : Nat
deriving DecidableEq

/-- Modelled from the spec: `readAddr` (socks5 common helpers, absent from
src/) consumes a SOCKS5 address — ATYP 0x01 with 4 IP bytes, 0x03 with a
length-prefixed name, or 0x04 with 16 IP bytes, each followed by a 2-byte
big-endian port — and returns it with the unconsumed remainder. -/
def readAddrB : List Nat → Option (S5Addr × List Nat)
  | atyp :: rest =>
    if atyp = 1 then
      match rest with
      | a :: b :: c :: d :: p1 :: p2 :: rest2 =>
        some (⟨S5Host.ip4 a b c d, p1 * 256 + p2⟩, rest2)
      | _ => none
    else if atyp = 3 then
      match rest with
      | len :: rest1 =>
        (match rest1.drop len with
         | p1 :: p2 :: rest2 =>
           some (⟨S5Host.domain (rest1.take len), p1 * 256 + p2⟩, rest2)
         | _ => none)
      | [] => none
    else if atyp = 4 then
      (match rest.drop 16 with
       | p1 :: p2 :: rest2 => some (⟨S5Host.ip6 (rest.take 16), p1 * 256 + p2⟩, rest2)
       | _ => none)
    else none
  | [] => none

/-- Modelled from the spec: `writeAddrWithStr` (absent from src/) emits the
SOCKS5 encoding of an address — ATYP, host bytes, 2-byte big-endian port. -/
def addrBytes : S5Addr → List Nat
  | ⟨S5Host.ip4 a b c d, port⟩ => [1, a, b, c, d, port / 256, port % 256]
  | ⟨S5Host.domain name, port⟩ => 3 :: name.length :: (name ++ [port / 256, port % 256])
  | ⟨S5Host.ip6 bs, port⟩ => 4 :: (bs ++ [port / 256, port % 256])

/-- The loop state of `embedHandleAssociate`: the target address, once
learned from the first valid client datagram, and the cached reply prefix. -/
structure RelayState where
  target : Option S5Addr
  replyPfx : Option (List Nat)
deriving DecidableEq

/-- A datagram arriving at the relay socket, from the fixed client source or
from the target. -/
inductive RelayEv where
  | fromClient (pkt : List Nat)
  | fromTarget (pkt : List Nat)
deriving DecidableEq

/-- Where a forwarded datagram is sent. -/
inductive RelayDest where
  | toTarget
  | toClient
deriving DecidableEq

/-- One iteration of the `embedHandleAssociate` relay loop (auth.go): a
client datagram shorter than 3 bytes or with an unreadable or non-target
address is dropped; otherwise the bytes left after `readAddr` are forwarded
to the target. A target datagram is forwarded to the client behind the
cached reply prefix, computing `0x00 0x00 0x00 ++ writeAddrWithStr(target)`
the first time. The FRAG byte is never examined. -/
def relayStep : RelayState → RelayEv → RelayState × Option (RelayDest × List Nat)
  | st, RelayEv.fromClient pkt =>
    if pkt.length < 3 then (st, none)
    else
      match readAddrB (pkt.drop 3) with
      | none => (st, none)
      | some (a, rest) =>
        match st.target with
        | none => (⟨some a, st.replyPfx⟩, some (RelayDest.toTarget, rest))
        | some t =>
          if a = t then (st, some (RelayDest.toTarget, rest)) else (st, none)
  | st, RelayEv.fromTarget pkt =>
    match st.target with
    | none => (st, none)
    | some t =>
      match st.replyPfx with
      | none =>
        (⟨some t, some ([0, 0, 0] ++ addrBytes t)⟩,
         some (RelayDest.toClient, ([0, 0, 0] ++ addrBytes t) ++ pkt))
      | some rp => (st, some (RelayDest.toClient, rp ++ pkt))

/-- A successful `readAddrB` consumed exactly the encoding of the address it
returned. -/
theorem readAddrB_consumes :
    ∀ (bs : List Nat) (a : S5Addr) (rest : List Nat),
      (∀ x ∈ bs, x < 256) → readAddrB bs = some (a, rest) →
      bs = addrBytes a ++ rest := by
  intro bs a rest hb h
  cases bs with
  | nil => exact Option.noConfusion h
  | cons atyp rest1 =>
    by_cases h1 : atyp = 1
    · subst h1
      simp only [readAddrB, if_pos rfl] at h
      rcases rest1 with _ | ⟨a1, _ | ⟨b1, _ | ⟨c1, _ | ⟨d1, _ | ⟨p1, _ | ⟨p2, rest2⟩⟩⟩⟩⟩⟩ <;>
        try exact Option.noConfusion h
      have hx := Option.some.inj h
      injection hx with ha hr
      subst ha
      subst hr
      have hp1 : p1 < 256 := hb p1 (by simp)
      have hp2 : p2 < 256 := hb p2 (by simp)
      have e1 : (p1 * 256 + p2) / 256 = p1 := by omega
      have e2 : (p1 * 256 + p2) % 256 = p2 := by omega
      simp [addrBytes, e1, e2]
    · by_cases h3 : atyp = 3
      · subst h3
        rcases rest1 with _ | ⟨len, rest2⟩
        · simp [readAddrB] at h
        · simp only [readAddrB] at h
          rw [if_neg (show ¬(3 = 1) by decide), if_pos trivial] at h
          rcases hd : rest2.drop len with _ | ⟨p1, _ | ⟨p2, rest3⟩⟩ <;>
            rw [hd] at h <;> try exact Option.noConfusion h
          have hx := Option.some.inj h
          injection hx with ha hr
          subst ha
          subst hr
          have hlen : len < rest2.length := by
            by_contra hcon
            rw [List.drop_eq_nil_of_le (by omega)] at hd
            exact List.noConfusion hd
          have htake : (rest2.take len).length = len := by
            rw [List.length_take]
            omega
          have hp1 : p1 < 256 := by
            refine hb p1 (List.mem_cons_of_mem _ (List.mem_cons_of_mem _ ?_))
            exact List.mem_of_mem_drop (by rw [hd]; simp)
          have hp2 : p2 < 256 := by
            refine hb p2 (List.mem_cons_of_mem _ (List.mem_cons_of_mem _ ?_))
            exact List.mem_of_mem_drop (by rw [hd]; simp)
          have e1 : (p1 * 256 + p2) / 256 = p1 := by omega
          have e2 : (p1 * 256 + p2) % 256 = p2 := by omega
          conv_lhs => rw [← List.take_append_drop len rest2, hd]
          simp [addrBytes, htake, e1, e2]
      · by_cases h4 : atyp = 4
        · subst h4
          simp only [readAddrB] at h
          rw [if_neg (show ¬(4 = 1) by decide), if_neg (show ¬(4 = 3) by decide),
            if_pos trivial] at h
          rcases hd : rest1.drop 16 with _ | ⟨p1, _ | ⟨p2, rest3⟩⟩ <;>
            rw [hd] at h <;> try exact Option.noConfusion h
          have hx := Option.some.inj h
          injection hx with ha hr
          subst ha
          subst hr
          have hlen : 16 < rest1.length := by
            by_contra hcon
            rw [List.drop_eq_nil_of_le (by omega)] at hd
            exact List.noConfusion hd
          have hp1 : p1 < 256 := by
            refine hb p1 (List.mem_cons_of_mem _ ?_)
            exact List.mem_of_mem_drop (by rw [hd]; simp)
          have hp2 : p2 < 256 := by
            refine hb p2 (List.mem_cons_of_mem _ ?_)
            exact List.mem_of_mem_drop (by rw [hd]; simp)
          have e1 : (p1 * 256 + p2) / 256 = p1 := by omega
          have e2 : (p1 * 256 + p2) % 256 = p2 := by omega
          conv_lhs => rw [← List.take_append_drop 16 rest1, hd]
          simp [addrBytes, e1, e2]
        · simp only [readAddrB, if_neg h1, if_neg h3, if_neg h4] at h
          exact Option.noConfusion h

/-- C7 (amended). In the embedded UDP relay, a client datagram forwarded to
the target loses its 3 leading (RSV|FRAG) bytes and the SOCKS5 target
address header — not the 3 bytes alone — and a target datagram is sent to
the client as exactly the cached reply-prefix bytes followed by the
payload. -/
theorem udp_relay_frames (st : RelayState) (pkt : List Nat) (a : S5Addr)
    (rest : List Nat) (hb : ∀ x ∈ pkt, x < 256) (hlen : ¬(pkt.length < 3))
    (hra : readAddrB (pkt.drop 3) = some (a, rest)) (ht : st.target = some a) :
    (relayStep st (RelayEv.fromClient pkt)).2 = some (RelayDest.toTarget, rest) ∧
    pkt = pkt.take 3 ++ (addrBytes a ++ rest) ∧
    (∀ rp pkt2, st.replyPfx = some rp →
      (relayStep st (RelayEv.fromTarget pkt2)).2 =
        some (RelayDest.toClient, rp ++ pkt2)) := by
  refine ⟨?_, ?_, ?_⟩
  · simp [relayStep, hlen, hra, ht]
  · have hb3 : ∀ x ∈ pkt.drop 3, x < 256 := fun x hx => hb x (List.mem_of_mem_drop hx)
    have hc := readAddrB_consumes (pkt.drop 3) a rest hb3 hra
    conv_lhs => rw [← List.take_append_drop 3 pkt, hc]
  · intro rp pkt2 hrp
    simp only [relayStep, ht, hrp]

/-- A client datagram whose forwarded payload differs from the datagram with
only its 3 leading bytes stripped: the 7-byte IPv4 address header is
stripped as well. -/
theorem udp_relay_strips_address :
    (relayStep ⟨none, none⟩
      (RelayEv.fromClient [0, 0, 0, 1, 9, 9, 9, 9, 0, 80, 42])).2 =
      some (RelayDest.toTarget, [42]) ∧
    ([42] : List Nat) ≠ ([0, 0, 0, 1, 9, 9, 9, 9, 0, 80, 42] : List Nat).drop 3 := by
  decide

/-- C8 (code bug). The relay loop never examines the FRAG byte: for every
FRAG value, a client datagram `0x00 0x00 FRAG | ATYP=1 9.9.9.9:80 | payload`
is forwarded to the target, including every nonzero FRAG that the
specification requires to be dropped. -/
theorem udp_relay_ignores_frag (frag : Nat) :
    (relayStep ⟨none, none⟩
      (RelayEv.fromClient (0 :: 0 :: frag :: [1, 9, 9, 9, 9, 0, 80, 42]))).2 =
      some (RelayDest.toTarget, [42]) := rfl

theorem udp_relay_frames_witness :
    (∀ x ∈ ([0, 0, 0, 1, 9, 9, 9, 9, 0, 80, 42] : List Nat), x < 256) ∧
    ¬(([0, 0, 0, 1, 9, 9, 9, 9, 0, 80, 42] : List Nat).length < 3) ∧
    readAddrB (([0, 0, 0, 1, 9, 9, 9, 9, 0, 80, 42] : List Nat).drop 3) =
      some (⟨S5Host.ip4 9 9 9 9, 80⟩, [42]) ∧
    ((relayStep ⟨some ⟨S5Host.ip4 9 9 9 9, 80⟩, some [0, 0, 0, 1, 9, 9, 9, 9, 0, 80]⟩
        (RelayEv.fromClient [0, 0, 0, 1, 9, 9, 9, 9, 0, 80, 42])).2 =
        some (RelayDest.toTarget, [42]) ∧
      ([0, 0, 0, 1, 9, 9, 9, 9, 0, 80, 42] : List Nat) =
        ([0, 0, 0, 1, 9, 9, 9, 9, 0, 80, 42] : List Nat).take 3 ++
          (addrBytes ⟨S5Host.ip4 9 9 9 9, 80⟩ ++ [42]) ∧
      (∀ rp pkt2,
        (⟨some ⟨S5Host.ip4 9 9 9 9, 80⟩,
            some [0, 0, 0, 1, 9, 9, 9, 9, 0, 80]⟩ : RelayState).replyPfx = some rp →
        (relayStep ⟨some ⟨S5Host.ip4 9 9 9 9, 80⟩, some [0, 0, 0, 1, 9, 9, 9, 9, 0, 80]⟩
          (RelayEv.fromTarget pkt2)).2 = some (RelayDest.toClient, rp ++ pkt2))) :=
  ⟨by decide, by decide, by decide,
    udp_relay_frames ⟨some ⟨S5Host.ip4 9 9 9 9, 80⟩, some [0, 0, 0, 1, 9, 9, 9, 9, 0, 80]⟩
      [0, 0, 0, 1, 9, 9, 9, 9, 0, 80, 42] ⟨S5Host.ip4 9 9 9 9, 80⟩ [42]
      (by decide) (by decide) (by decide) rfl⟩

/-! ## `copyConnTimeout` (`vtun.go`) -/

/-- One iteration's worth of connection events for `copyConnTimeout`: the
result of setting the read deadline, the bytes and error returned by the
read, and the write's result (consulted only when bytes were read). -/
structure CopyStep where
  deadlineErr : Option NetError
  readBytes : List Nat
  readErr : Option NetError
  writeNw : Int
  writeEw : Option NetError
deriving DecidableEq

/-- `copyConnTimeout` from vtun.go over a trace of per-iteration events,
returning the written count and the error variable at loop exit; `none`
means the trace ended with the loop still running. -/
def copyConnTimeout (steps : List CopyStep) (written : Int) :
    Option (Int × Option NetError) :=
  match steps with
  | [] => none
  | st :: rest =>
    match st.deadlineErr with
    | some e => some (written, some e)
    | none =>
      if 0 < st.readBytes.length then
        let nw0 := st.writeNw
        let bad := nw0 < 0 ∨ (st.readBytes.length : Int) < nw0
        let nw := if bad then 0 else nw0
        let ew := if bad then
            (if st.writeEw = none then some NetError.invalidWrite else st.writeEw)
          else st.writeEw
        let written2 := written + nw
        if ew ≠ none then some (written2, ew)
        else if (st.readBytes.length : Int) ≠ nw then
          some (written2, some NetError.shortWrite)
        else
          match st.readErr with
          | some er =>
            if er = NetError.eof then some (written2, none)
            else some (written2, some er)
          | none => copyConnTimeout rest written2
      else
        match st.readErr with
        | some er =>
          if er = NetError.eof then some (written, none)
          else some (written, some er)
        | none => copyConnTimeout rest written

/-- C10. A read returning EOF after a clean full write ends
`copyConnTimeout` with a nil error and the accumulated count, and every
non-nil error it returns stems from a step's deadline failure, its write
error, a short or invalid write, or its non-EOF read error. -/
theorem copyConnTimeout_eof_clean :
    (∀ (st : CopyStep) (steps : List CopyStep) (w : Int),
      st.deadlineErr = none → st.writeEw = none →
      st.writeNw = (st.readBytes.length : Int) → st.readErr = some NetError.eof →
      copyConnTimeout (st :: steps) w =
        some (w + (st.readBytes.length : Int), none)) ∧
    (∀ (steps : List CopyStep) (w w2 : Int) (e : NetError),
      copyConnTimeout steps w = some (w2, some e) →
      ∃ st ∈ steps, st.deadlineErr = some e ∨ st.writeEw = some e ∨
        e = NetError.shortWrite ∨ e = NetError.invalidWrite ∨
        (st.readErr = some e ∧ e ≠ NetError.eof)) := by
  constructor
  · intro st steps w hde hew hnw hre
    by_cases hpos : 0 < st.readBytes.length
    · have hbad : ¬(st.writeNw < 0 ∨ (st.readBytes.length : Int) < st.writeNw) := by
        rw [hnw]
        omega
      simp only [copyConnTimeout, hde, hre, if_pos hpos, if_neg hbad, hew]
      rw [if_neg (show ¬((none : Option NetError) ≠ none) by simp)]
      rw [if_neg (show ¬((st.readBytes.length : Int) ≠ st.writeNw) by simp [hnw])]
      simp [hnw]
    · have hz : ((st.readBytes.length : Nat) : Int) = 0 := by omega
      simp [copyConnTimeout, hde, hre, hpos, hz]
  · intro steps
    induction steps with
    | nil =>
      intro w w2 e h
      exact Option.noConfusion h
    | cons st rest ih =>
      intro w w2 e h
      cases hde : st.deadlineErr with
      | some e0 =>
        simp only [copyConnTimeout, hde] at h
        have hx := Option.some.inj h
        injection hx with h1 h2
        refine ⟨st, by simp, Or.inl ?_⟩
        rw [hde, Option.some.inj h2]
      | none =>
        simp only [copyConnTimeout, hde] at h
        by_cases hpos : 0 < st.readBytes.length
        · simp only [if_pos hpos] at h
          by_cases hbad : st.writeNw < 0 ∨ (st.readBytes.length : Int) < st.writeNw
          · simp only [if_pos hbad] at h
            by_cases hewn : st.writeEw = none
            · simp only [if_pos hewn] at h
              rw [if_pos (show (some NetError.invalidWrite : Option NetError) ≠ none
                by simp)] at h
              have hx := Option.some.inj h
              injection hx with h1 h2
              refine ⟨st, by simp, Or.inr (Or.inr (Or.inr (Or.inl ?_)))⟩
              exact (Option.some.inj h2).symm
            · simp only [if_neg hewn] at h
              rw [if_pos hewn] at h
              have hx := Option.some.inj h
              injection hx with h1 h2
              exact ⟨st, by simp, Or.inr (Or.inl h2)⟩
          · simp only [if_neg hbad] at h
            by_cases hewn : st.writeEw = none
            · simp only [hewn] at h
              rw [if_neg (show ¬((none : Option NetError) ≠ none) by simp)] at h
              by_cases hshort : (st.readBytes.length : Int) ≠ st.writeNw
              · rw [if_pos hshort] at h
                have hx := Option.some.inj h
                injection hx with h1 h2
                refine ⟨st, by simp, Or.inr (Or.inr (Or.inl ?_))⟩
                exact (Option.some.inj h2).symm
              · rw [if_neg hshort] at h
                cases hre : st.readErr with
                | some er =>
                  simp only [hre] at h
                  by_cases heof : er = NetError.eof
                  · rw [if_pos heof] at h
                    have hx := Option.some.inj h
                    injection hx with h1 h2
                    exact Option.noConfusion h2
                  · rw [if_neg heof] at h
                    have hx := Option.some.inj h
                    injection hx with h1 h2
                    refine ⟨st, by simp, Or.inr (Or.inr (Or.inr (Or.inr ⟨?_, ?_⟩)))⟩
                    · rw [hre, Option.some.inj h2]
                    · rw [← Option.some.inj h2]
                      exact heof
                | none =>
                  simp only [hre] at h
                  obtain ⟨st2, hst2, hcase⟩ := ih _ _ _ h
                  exact ⟨st2, by simp [hst2], hcase⟩
            · rw [if_pos hewn] at h
              have hx := Option.some.inj h
              injection hx with h1 h2
              exact ⟨st, by simp, Or.inr (Or.inl h2)⟩
        · simp only [if_neg hpos] at h
          cases hre : st.readErr with
          | some er =>
            simp only [hre] at h
            by_cases heof : er = NetError.eof
            · rw [if_pos heof] at h
              have hx := Option.some.inj h
              injection hx with h1 h2
              exact Option.noConfusion h2
            · rw [if_neg heof] at h
              have hx := Option.some.inj h
              injection hx with h1 h2
              refine ⟨st, by simp, Or.inr (Or.inr (Or.inr (Or.inr ⟨?_, ?_⟩)))⟩
              · rw [hre, Option.some.inj h2]
              · rw [← Option.some.inj h2]
                exact heof
          | none =>
            simp only [hre] at h
            obtain ⟨st2, hst2, hcase⟩ := ih _ _ _ h
            exact ⟨st2, by simp [hst2], hcase⟩

theorem copyConnTimeout_eof_clean_witness :
    copyConnTimeout [⟨none, [7], some NetError.eof, 1, none⟩] 0 =
      some (0 + (((⟨none, [7], some NetError.eof, 1, none⟩ : CopyStep)).readBytes.length : Int),
        none) :=
  copyConnTimeout_eof_clean.1 ⟨none, [7], some NetError.eof, 1, none⟩ [] 0 rfl rfl
    (by decide) rfl

end Wiresocks

